import Mathlib

/-!
# Verification of the graph storage library (`src/Graph.h` and companions)

This file is a shallow embedding of the graph storage library: a stable
block-based array (`Array.h`), node and edge stores with a dense adjacency
matrix (`Nodes.h`, `Edges.h`), the `Graph` orchestration of copy/move
(`Graph.h`), and the text import/export layer.

Modelling conventions:
* `size_t` values become `Nat` (all quantities here are sizes and indices,
  never subject to wraparound in reachable states).
* Raw pointers into a store become `(owner, index)` pairs, where `owner` is an
  abstract tag naming the container instance that owns the pointed-to storage
  and `index` is the element position.  A pointer dereference succeeds exactly
  when its owner tag matches the container at hand; this mirrors the validity
  of a C++ pointer into a still-live container whose blocks never move.
* Throwing C++ functions return `Except Exc α`; mutators additionally return
  the post-call state (the C++ object outlives the exception, carrying the
  rolled-back state).
* `std::bad_alloc` nondeterminism is modelled by explicit failure flags on the
  operations that allocate.
-/

namespace GraphModel

/-- The exception kinds of `Exceptions.h` (message text is out of scope). -/
inductive Exc where
  | invalidIdentifier
  | conflictingItem
  | nonexistingItem
  | unavailableMemory
  | outOfRange
  | emptyArray
  | parsing
  deriving DecidableEq, Repr

/-- `Node<NData>` from `Node.h`: an id and a payload. -/
structure Node (NData : Type) where
  id : Nat
  data : NData
  deriving DecidableEq, Repr

/-- A raw `Node<NData>*`: the tag of the owning node container plus the
element index inside it. -/
structure NodePtr where
  owner : Nat
  index : Nat
  deriving DecidableEq, Repr

/-- A raw `Edge<NData, EData>*`: the tag of the owning edge container plus the
element index inside it. -/
structure EdgePtr where
  owner : Nat
  index : Nat
  deriving DecidableEq, Repr

/-- `Edge<NData, EData>` from `Edge.h`: an id, source/target node pointers,
and a payload. -/
structure Edge (NData EData : Type) where
  id : Nat
  source : NodePtr
  target : NodePtr
  data : EData
  deriving DecidableEq, Repr

/-- The `adjacency_matrix_` field of `Edges`: a vector of rows of optional
edge pointers (`nullptr` is `none`). -/
abbrev Matrix := List (List (Option EdgePtr))

/-- A `Graph` together with its two stores.  `nodes` and `edges` are the
logical element sequences of the two stable containers; `nodesTag` and
`edgesTag` are the ownership tags of those containers' storage.  The
`graph_` back-references of `Nodes`/`Edges` are realised by passing the
whole `Graph` state to every operation. -/
structure Graph (NData EData : Type) where
  isUndirected : Bool
  nodesTag : Nat
  edgesTag : Nat
  nodes : List (Node NData)
  edges : List (Edge NData EData)
  adjacencyMatrix : Matrix
  deriving DecidableEq, Repr

variable {NData EData : Type}

/-- A freshly constructed (empty) graph: both stores empty, matrix empty. -/
def mkGraph (u : Bool) (tN tE : Nat) : Graph NData EData :=
  { isUndirected := u, nodesTag := tN, edgesTag := tE,
    nodes := [], edges := [], adjacencyMatrix := [] }

/-- Read `adjacency_matrix_[s][t]`.  The C++ indexing is unchecked; every
call site either bounds-checks first or is reached only with in-range
indices, where this total function agrees with it. -/
def matrixCell (m : Matrix) (s t : Nat) : Option EdgePtr :=
  ((m[s]?.getD [])[t]?).getD none

/-- Write `adjacency_matrix_[s][t] = v` (in-range at every call site). -/
def matrixSet (m : Matrix) (s t : Nat) (v : Option EdgePtr) : Matrix :=
  m.set s ((m[s]?.getD []).set t v)

/-- `Nodes::size`. -/
def nodesSize (g : Graph NData EData) : Nat := g.nodes.length

/-- `Nodes::exists`: `id < size()`. -/
def nodesExists (g : Graph NData EData) (id : Nat) : Bool :=
  decide (id < nodesSize g)

/-- `Nodes::get`: throws `NonexistingItem` when `id` is out of range. -/
def nodesGet (g : Graph NData EData) (id : Nat) : Except Exc (Node NData) :=
  match g.nodes[id]? with
  | some nd => .ok nd
  | none => .error .nonexistingItem

/-- `Edges::size`. -/
def edgesSize (g : Graph NData EData) : Nat := g.edges.length

/-- `Edges::exists(id)`: `id < size()`. -/
def edgesExistsId (g : Graph NData EData) (id : Nat) : Bool :=
  decide (id < edgesSize g)

/-- `Edges::exists(source, target)`: throws `NonexistingItem` when either id
is at least the adjacency matrix dimension, otherwise tests the cell. -/
def edgesExistsPair (g : Graph NData EData) (s t : Nat) : Except Exc Bool :=
  let dim := g.adjacencyMatrix.length
  if s ≥ dim ∨ t ≥ dim then .error .nonexistingItem
  else .ok (matrixCell g.adjacencyMatrix s t).isSome

/-- `Edges::get(source, target)`: returns the *address* stored in the matrix
cell (the C++ function returns the referenced edge record by reference;
record identity is pointer identity). -/
def edgesGetPair (g : Graph NData EData) (s t : Nat) : Except Exc EdgePtr :=
  let dim := g.adjacencyMatrix.length
  if s ≥ dim ∨ t ≥ dim then .error .nonexistingItem
  else match matrixCell g.adjacencyMatrix s t with
    | none => .error .nonexistingItem
    | some p => .ok p

/-- Dereference a `Node*` against a graph: defined exactly when the pointer's
owner tag is this graph's node container. -/
def derefNode (g : Graph NData EData) (p : NodePtr) : Option (Node NData) :=
  if p.owner = g.nodesTag then g.nodes[p.index]? else none

/-- Dereference an `Edge*` against a graph. -/
def derefEdge (g : Graph NData EData) (p : EdgePtr) : Option (Edge NData EData) :=
  if p.owner = g.edgesTag then g.edges[p.index]? else none

/-- `edge.getSource().getId()`. -/
def edgeSourceId (g : Graph NData EData) (e : Edge NData EData) : Option Nat :=
  (derefNode g e.source).map Node.id

/-- `edge.getTarget().getId()`. -/
def edgeTargetId (g : Graph NData EData) (e : Edge NData EData) : Option Nat :=
  (derefNode g e.target).map Node.id

/-- The success path of `Edges::grow_adjacency_matrix`: push one `nullptr`
onto every existing row, then push a fresh all-`nullptr` row one longer. -/
def growMatrix (m : Matrix) : Matrix :=
  (m.map (fun row => row ++ [none])) ++ [List.replicate (m.length + 1) none]

/-- `Edges::grow_adjacency_matrix` with an allocation-failure flag.  On
failure the `catch` block resizes every extended row and the row vector back
to the pre-call dimension, so the matrix is returned unchanged and
`UnavailableMemoryException` is raised. -/
def growAdjacencyMatrix (fail : Bool) (m : Matrix) : Except Exc Matrix :=
  if fail then .error .unavailableMemory
  else .ok (growMatrix m)

/-- `Nodes::add(id, data)` with failure flags for the two allocations it may
perform (`failAppend`: the node container's block allocation inside
`push_back`; `failGrow`: the matrix growth).  Mirrors `Nodes.h`:
id validation, `push_back`, `grow_adjacency_matrix`, and the `catch` block
that pops the just-added node and rethrows `UnavailableMemoryException`. -/
def nodesAddF (failAppend failGrow : Bool) (g : Graph NData EData) (id : Nat)
    (d : NData) : Except Exc (Node NData) × Graph NData EData :=
  let pre := g.nodes.length
  if id > pre then (.error .invalidIdentifier, g)
  else if id < pre then (.error .conflictingItem, g)
  else if failAppend then
    -- push_back threw before the element was written; size still `pre`,
    -- so the catch block pops nothing and rethrows.
    (.error .unavailableMemory, g)
  else
    let nd : Node NData := ⟨id, d⟩
    let g1 := { g with nodes := g.nodes ++ [nd] }
    match growAdjacencyMatrix failGrow g.adjacencyMatrix with
    | .error _ =>
        -- catch: `nodes_.size() > pre`, so pop the just-added node.
        (.error .unavailableMemory, { g1 with nodes := g1.nodes.dropLast })
    | .ok m => (.ok nd, { g1 with adjacencyMatrix := m })

/-- `Nodes::add(id, data)` on the allocation-success path. -/
def nodesAdd (g : Graph NData EData) (id : Nat) (d : NData) :
    Except Exc (Node NData) × Graph NData EData :=
  nodesAddF false false g id d

/-- The id-less overload `Nodes::add(data)`. -/
def nodesAdd1 (g : Graph NData EData) (d : NData) :
    Except Exc (Node NData) × Graph NData EData :=
  nodesAdd g (nodesSize g) d

/-- `Edges::add(id, source, target, data)` on the allocation-success path:
id validation, endpoint existence against the node store, the no-multigraph
check on `matrix[source][target]`, then append the edge (whose source/target
pointers are the addresses `&nodes().get(source)` / `&nodes().get(target)`)
and record its address in the matrix (both cells when undirected). -/
def edgesAdd (g : Graph NData EData) (id s t : Nat) (d : EData) :
    Except Exc (Edge NData EData) × Graph NData EData :=
  let pre := g.edges.length
  if id > pre then (.error .invalidIdentifier, g)
  else if id < pre then (.error .conflictingItem, g)
  else
    let n := g.nodes.length
    if s ≥ n ∨ t ≥ n then (.error .nonexistingItem, g)
    else if (matrixCell g.adjacencyMatrix s t).isSome then
      (.error .conflictingItem, g)
    else
      let e : Edge NData EData := ⟨id, ⟨g.nodesTag, s⟩, ⟨g.nodesTag, t⟩, d⟩
      let edges' := g.edges ++ [e]
      let p : EdgePtr := ⟨g.edgesTag, edges'.length - 1⟩
      let m1 := matrixSet g.adjacencyMatrix s t (some p)
      let m2 := if g.isUndirected then matrixSet m1 t s (some p) else m1
      (.ok e, { g with edges := edges', adjacencyMatrix := m2 })

/-- The id-less overload `Edges::add(source, target, data)`. -/
def edgesAdd1 (g : Graph NData EData) (s t : Nat) (d : EData) :
    Except Exc (Edge NData EData) × Graph NData EData :=
  edgesAdd g (edgesSize g) s t d

/-- `mapM` over `Option`, written out so its unfolding lemmas are immediate. -/
def listMapM {α β : Type} (f : α → Option β) : List α → Option (List β)
  | [] => some []
  | a :: l =>
    match f a, listMapM f l with
    | some b, some l' => some (b :: l')
    | _, _ => none

/-- The edge-scanning loop of `Edges::construct_adjacency_matrix`: for each
stored edge (at index `i`) write `&edges_[i]` at
`matrix[getSource().getId()][getTarget().getId()]`, mirrored when the owning
graph is undirected.  `none` when a source/target pointer does not
dereference against `g` (dangling in C++). -/
def camGo (g : Graph NData EData) :
    List (Edge NData EData) → Nat → Matrix → Option Matrix
  | [], _, m => some m
  | e :: rest, i, m =>
    match edgeSourceId g e, edgeTargetId g e with
    | some s, some t =>
      let p : EdgePtr := ⟨g.edgesTag, i⟩
      let m1 := matrixSet m s t (some p)
      let m2 := if g.isUndirected then matrixSet m1 t s (some p) else m1
      camGo g rest (i + 1) m2
    | _, _ => none

/-- `Edges::construct_adjacency_matrix` (allocation-success path): rebuild
the matrix as an n×n all-`nullptr` table, then scan every stored edge. -/
def constructAdjacencyMatrix (g : Graph NData EData) :
    Option (Graph NData EData) :=
  let n := g.nodes.length
  (camGo g g.edges 0 (List.replicate n (List.replicate n none))).map
    (fun m => { g with adjacencyMatrix := m })

/-- One step of `Edges::update_source_and_target_pointers`: read the source
and target ids through the edge's current pointers (which dereference
against `env`, the store the edge currently references), then rebind to the
addresses `&graph_->nodes()[id]` inside `tgt` (`operator[]` throws unless
`id` is in range, hence the bound checks). -/
def updateEdgePointers (env tgt : Graph NData EData) (e : Edge NData EData) :
    Option (Edge NData EData) :=
  match edgeSourceId env e, edgeTargetId env e with
  | some sid, some tid =>
    if sid < tgt.nodes.length ∧ tid < tgt.nodes.length then
      some { e with source := ⟨tgt.nodesTag, sid⟩, target := ⟨tgt.nodesTag, tid⟩ }
    else none
  | _, _ => none

/-- `Edges::update_source_and_target_pointers`, rebinding every stored edge. -/
def updateSTP (env g : Graph NData EData) : Option (Graph NData EData) :=
  (listMapM (updateEdgePointers env g) g.edges).map
    (fun es => { g with edges := es })

/-- `Graph` copy construction (and the common semantics of copy assignment):
the new graph gets fresh storage (tags `tN`, `tE`), element-wise copies of
both stores, then `update_source_and_target_pointers` (the copied edges still
point into `g`'s node storage) followed by `construct_adjacency_matrix`
(invoked by the concrete variant's constructor, which knows the
orientation). -/
def copyGraph (g : Graph NData EData) (tN tE : Nat) :
    Option (Graph NData EData) :=
  let base : Graph NData EData :=
    { isUndirected := g.isUndirected, nodesTag := tN, edgesTag := tE,
      nodes := g.nodes, edges := g.edges, adjacencyMatrix := [] }
  (updateSTP g base).bind constructAdjacencyMatrix

/-- `Graph` move construction: the new graph is default-constructed and then
`std::swap`ped with `other` member-wise; the swapped-in storage keeps its
blocks, so the contents *and their ownership tags* transfer wholesale, and
`other` is left holding the freshly constructed empty containers
(tags `tN`, `tE`).  Returns (moved-to, moved-from). -/
def moveGraph (g : Graph NData EData) (tN tE : Nat) :
    Graph NData EData × Graph NData EData :=
  ({ isUndirected := g.isUndirected, nodesTag := g.nodesTag,
     edgesTag := g.edgesTag, nodes := g.nodes, edges := g.edges,
     adjacencyMatrix := g.adjacencyMatrix },
   mkGraph g.isUndirected tN tE)

/-! ## The text import/export layer (`Graph.h` §import/print, `Node.h`/`Edge.h` printing) -/

/-- An `std::istringstream` positioned inside one line: the remaining
characters and the stream state (`good()`). -/
structure ISS where
  rem : List Char
  good : Bool
  deriving DecidableEq, Repr

/-- `iss.get()`: consume one character; hitting end-of-input sets `eofbit`. -/
def issGet (s : ISS) : ISS :=
  if s.good then
    match s.rem with
    | [] => { rem := [], good := false }
    | _ :: r => { rem := r, good := true }
  else { s with good := false }

/-- Split off the longest prefix before the first occurrence of `c`;
`none` when `c` does not occur. -/
def splitAtChar (c : Char) : List Char → Option (List Char × List Char)
  | [] => none
  | x :: xs =>
    if x = c then some ([], xs)
    else (splitAtChar c xs).map (fun p => (x :: p.1, p.2))

/-- `std::getline(iss, out, delim)`: read up to and consuming `delim`; if the
delimiter is never found the whole rest is read and `eofbit` is set. -/
def issGetline (s : ISS) (delim : Char) : List Char × ISS :=
  if s.good then
    match splitAtChar delim s.rem with
    | some (pre, post) => (pre, { rem := post, good := true })
    | none => (s.rem, { rem := [], good := false })
  else ([], { s with good := false })

/-- The character for decimal digit `d`. -/
def digitChar (d : Nat) : Char := Char.ofNat (48 + d)

/-- `operator<<` on a `size_t`: the standard decimal numeral. -/
def natToChars (n : Nat) : List Char :=
  if n = 0 then ['0'] else ((Nat.digits 10 n).reverse).map digitChar

/-- The numeric value of a digit character. -/
def charVal (c : Char) : Nat := c.toNat - 48

/-- `std::stoi` followed by `parse_id`'s full-consumption check
(`p == id_string.size()`), restricted to unsigned decimal numerals without
sign or leading whitespace — exactly the numeral forms the exporter emits;
anything else raises `ParsingException` in `parse_id`. -/
def stoiAll (s : List Char) : Option Nat :=
  if s ≠ [] ∧ s.all Char.isDigit then
    some (s.foldl (fun acc c => acc * 10 + charVal c) 0)
  else none

/-- `Graph::parse_id`: `getline` up to `delim`, convert, and fail with
`ParsingException` unless the whole extracted token is a numeral. -/
def parseId (s : ISS) (delim : Char) : Except Exc (Nat × ISS) :=
  let r := issGetline s delim
  match stoiAll r.1 with
  | some n => .ok (n, r.2)
  | none => .error .parsing

section ImportExport

variable (printN : NData → List Char) (printE : EData → List Char)
variable (parseN : List Char → NData) (parseE : List Char → EData)

/-- `Graph::import_node` (the `node ` prefix already consumed): skip `(`,
parse the id up to a space, skip `{`, read the payload text up to `}`,
extract the payload with `operator>>` (modelled by `parseN`), then
`nodes_.add(id, data)`.  Errors model exceptions escaping `import`. -/
def importNode (g : Graph NData EData) (s : ISS) :
    Except Exc (Graph NData EData) :=
  if ¬ s.good then .ok g
  else
    let s1 := issGet s
    match parseId s1 ' ' with
    | .error e => .error e
    | .ok (id, s2) =>
      let s3 := issGet s2
      let r := issGetline s3 '}'
      match nodesAdd g id (parseN r.1) with
      | (.ok _, g') => .ok g'
      | (.error e, _) => .error e

/-- `Graph::import_edge` (the `edge ` prefix already consumed): skip `(`,
parse the source id up to `)`, skip `-[`, parse the edge id up to a space,
skip `{`, read the payload up to `}`, skip `]->(`, parse the target id up to
`)`, then `edges_.add(id, source, target, data)`. -/
def importEdge (g : Graph NData EData) (s : ISS) :
    Except Exc (Graph NData EData) :=
  if ¬ s.good then .ok g
  else
    let s1 := issGet s
    match parseId s1 ')' with
    | .error e => .error e
    | .ok (src, s2) =>
      let s3 := issGet (issGet s2)
      match parseId s3 ' ' with
      | .error e => .error e
      | .ok (eid, s4) =>
        let s5 := issGet s4
        let r := issGetline s5 '}'
        let s6 := issGet (issGet (issGet (issGet r.2)))
        match parseId s6 ')' with
        | .error e => .error e
        | .ok (tgt, _) =>
          match edgesAdd g eid src tgt (parseE r.1) with
          | (.ok _, g') => .ok g'
          | (.error e, _) => .error e

/-- `Graph::import_line`: split off the first space-delimited token and
dispatch on `node` / `edge`; any other line is ignored. -/
def importLine (g : Graph NData EData) (line : List Char) :
    Except Exc (Graph NData EData) :=
  let s : ISS := ⟨line, true⟩
  if ¬ s.good then .ok g
  else
    let r := issGetline s ' '
    if r.1 = "node".toList then importNode parseN g r.2
    else if r.1 = "edge".toList then importEdge parseE g r.2
    else .ok g

/-- `Graph::import`: process the input line by line (the `while
(std::getline(is, line))` loop; line splitting is taken as primitive).
An exception escaping a line aborts the whole import. -/
def importGraph (g : Graph NData EData) :
    List (List Char) → Except Exc (Graph NData EData)
  | [] => .ok g
  | l :: ls =>
    match importLine parseN parseE g l with
    | .ok g' => importGraph g' ls
    | .error e => .error e

/-- The line `operator<<` prints for one node:
`node (<id> {<payload>})`. -/
def exportNodeLine (nd : Node NData) : List Char :=
  "node (".toList ++ natToChars nd.id ++ " \x7b".toList ++ printN nd.data
    ++ "\x7d)".toList

/-- The line `operator<<` prints for one edge:
`edge (<source-id>)-[<id> {<payload>}]->(<target-id>)`, the endpoint ids read
through the edge's node pointers. -/
def exportEdgeLine (g : Graph NData EData) (e : Edge NData EData) :
    Option (List Char) :=
  match edgeSourceId g e, edgeTargetId g e with
  | some sid, some tid =>
    some ("edge (".toList ++ natToChars sid ++ ")-[".toList
      ++ natToChars e.id ++ " \x7b".toList ++ printE e.data ++ "\x7d]->(".toList
      ++ natToChars tid ++ ")".toList)
  | _, _ => none

/-- `Graph::print`: one line per node (in storage order), then one line per
edge (in storage order). -/
def exportAllLines (g : Graph NData EData) : Option (List (List Char)) :=
  (listMapM (exportEdgeLine printE g) g.edges).map
    (fun els => g.nodes.map (exportNodeLine printN) ++ els)

end ImportExport

/-- The exact character sequence `operator<<` emits for an edge of a
well-formed graph (the endpoint ids equal the pointer indices there). -/
def edgeLineOf (printE : EData → List Char) (e : Edge NData EData) :
    List Char :=
  'e' :: 'd' :: 'g' :: 'e' :: ' ' :: '(' ::
    (natToChars e.source.index ++ ')' :: '-' :: '[' ::
      (natToChars e.id ++ ' ' :: '{' ::
        (printE e.data ++ '}' :: ']' :: '-' :: '>' :: '(' ::
          (natToChars e.target.index ++ [')']))))

/-- The graph states reachable through the public interface: a freshly
constructed graph, successful node/edge insertion, copy construction,
move construction (either side), and text import.  The stores expose no
individual removal operation. -/
inductive Reachable : Graph NData EData → Prop where
  | empty (u : Bool) (tN tE : Nat) : Reachable (mkGraph u tN tE)
  | addNode {g g' : Graph NData EData} (id : Nat) (d : NData)
      {x : Node NData} :
      Reachable g → nodesAdd g id d = (.ok x, g') → Reachable g'
  | addEdge {g g' : Graph NData EData} (id s t : Nat) (d : EData)
      {x : Edge NData EData} :
      Reachable g → edgesAdd g id s t d = (.ok x, g') → Reachable g'
  | copy {g c : Graph NData EData} (tN tE : Nat) :
      Reachable g → copyGraph g tN tE = some c → Reachable c
  | moveTarget {g : Graph NData EData} (tN tE : Nat) :
      Reachable g → Reachable (moveGraph g tN tE).1
  | moveSource {g : Graph NData EData} (tN tE : Nat) :
      Reachable g → Reachable (moveGraph g tN tE).2
  | importStep {g g' : Graph NData EData}
      (parseN : List Char → NData) (parseE : List Char → EData)
      (lines : List (List Char)) :
      Reachable g → importGraph parseN parseE g lines = .ok g' → Reachable g'

/-- The structural invariants of a graph (spec §3): square matrix in
lockstep with the node count, dense ids in both stores, every edge pointer
resolving inside this graph's own node store, and the matrix cells sound and
complete for the stored edges (mirrored cells when undirected). -/
structure WF (g : Graph NData EData) : Prop where
  dim : g.adjacencyMatrix.length = g.nodes.length
  rows : ∀ i : Nat, i < g.adjacencyMatrix.length →
    ((g.adjacencyMatrix[i]?).getD []).length = g.nodes.length
  nodeIds : ∀ (i : Nat) (nd : Node NData), g.nodes[i]? = some nd → nd.id = i
  edgeIds : ∀ (j : Nat) (e : Edge NData EData), g.edges[j]? = some e → e.id = j
  ptrOwners : ∀ e ∈ g.edges,
    e.source.owner = g.nodesTag ∧ e.target.owner = g.nodesTag
  ptrRange : ∀ e ∈ g.edges,
    e.source.index < g.nodes.length ∧ e.target.index < g.nodes.length
  cellSound : ∀ s t p, matrixCell g.adjacencyMatrix s t = some p →
    p.owner = g.edgesTag ∧ ∃ e, g.edges[p.index]? = some e ∧
      ((e.source.index = s ∧ e.target.index = t) ∨
       (g.isUndirected = true ∧ e.source.index = t ∧ e.target.index = s))
  cellComplete : ∀ j e, g.edges[j]? = some e →
    matrixCell g.adjacencyMatrix e.source.index e.target.index
      = some ⟨g.edgesTag, j⟩ ∧
    (g.isUndirected = true →
      matrixCell g.adjacencyMatrix e.target.index e.source.index
        = some ⟨g.edgesTag, j⟩)

/-- An edge record as re-placed by the element-wise copy plus
`update_source_and_target_pointers`: same id and payload, the endpoint
pointers rebound into the node store tagged `tN` (at the same indices, since
ids are dense). -/
def retagEdge (tN : Nat) (e : Edge NData EData) : Edge NData EData :=
  { e with source := ⟨tN, e.source.index⟩, target := ⟨tN, e.target.index⟩ }

/-- A matrix cell as re-established by `construct_adjacency_matrix` against
the edge store tagged `tE`. -/
def retagCell (tE : Nat) : Option EdgePtr → Option EdgePtr
  | none => none
  | some p => some ⟨tE, p.index⟩

/-- A whole adjacency matrix with every occupied cell retagged. -/
def retagMatrix (tE : Nat) (m : Matrix) : Matrix :=
  m.map (List.map (retagCell tE))

/-- The value `copyGraph` produces on a well-formed graph (proved below):
same node records, edge records rebound into the new node store, matrix
cells rebound into the new edge store. -/
def copiedGraph (g : Graph NData EData) (tN tE : Nat) : Graph NData EData :=
  { isUndirected := g.isUndirected, nodesTag := tN, edgesTag := tE,
    nodes := g.nodes, edges := g.edges.map (retagEdge tN),
    adjacencyMatrix := retagMatrix tE g.adjacencyMatrix }

/-- A payload's text representation is round-trip-safe for the snapshot
format: extraction inverts printing, and the printed text contains neither
the payload terminator `}` nor a line break (either would cut the
surrounding line short). -/
def RoundTripSafe {D : Type} (printD : D → List Char)
    (parseD : List Char → D) : Prop :=
  (∀ d, parseD (printD d) = d) ∧
  (∀ d, '}' ∉ printD d ∧ '\n' ∉ printD d)

/-! ## Concrete graphs used to instantiate the general theorems -/

/-- Stages of a directed demo graph: nodes 0,1,2 (payloads 100,101,102) and
edges 0:(0→1), 1:(1→2) — spec §8 scenario 1 with numeric payloads. -/
def demoDirected0 : Graph Nat Nat := mkGraph false 0 1

/-- Demo stage: one node. -/
def demoDirected1 : Graph Nat Nat := (nodesAdd demoDirected0 0 100).2

/-- Demo stage: two nodes. -/
def demoDirected2 : Graph Nat Nat := (nodesAdd demoDirected1 1 101).2

/-- Demo stage: three nodes. -/
def demoDirected3 : Graph Nat Nat := (nodesAdd demoDirected2 2 102).2

/-- Demo stage: first edge 0→1. -/
def demoDirected4 : Graph Nat Nat := (edgesAdd demoDirected3 0 0 1 200).2

/-- The directed demo graph: three nodes, edges 0→1 and 1→2. -/
def demoDirected : Graph Nat Nat := (edgesAdd demoDirected4 1 1 2 201).2

/-- Stages of the same graph built undirected (tags 2,3). -/
def demoUndirected0 : Graph Nat Nat := mkGraph true 2 3

/-- Demo stage: one node. -/
def demoUndirected1 : Graph Nat Nat := (nodesAdd demoUndirected0 0 100).2

/-- Demo stage: two nodes. -/
def demoUndirected2 : Graph Nat Nat := (nodesAdd demoUndirected1 1 101).2

/-- Demo stage: three nodes. -/
def demoUndirected3 : Graph Nat Nat := (nodesAdd demoUndirected2 2 102).2

/-- Demo stage: first edge 0–1. -/
def demoUndirected4 : Graph Nat Nat := (edgesAdd demoUndirected3 0 0 1 200).2

/-- The undirected demo graph: three nodes, edges 0–1 and 1–2. -/
def demoUndirected : Graph Nat Nat := (edgesAdd demoUndirected4 1 1 2 201).2

end GraphModel

namespace StableArray

open GraphModel (Exc)

/-- `my_array::Array<element>`: the block size, the allocated blocks
(`data_`, each block holding `block_size_` value-initialized slots), and the
logical element count. -/
structure MArr (α : Type) where
  blockSize : Nat
  blocks : List (List α)
  elementCount : Nat
  deriving DecidableEq, Repr

variable {α : Type}

/-- `Array(block_size)`: no blocks, zero elements. -/
def mkArr (α : Type) (B : Nat) : MArr α := ⟨B, [], 0⟩

/-- `Array::free_space_count_`. -/
def freeSpaceCount (a : MArr α) : Nat :=
  a.blocks.length * a.blockSize - a.elementCount

/-- `Array::add_block_` (allocation-success path): one fresh
value-initialized block appended to `data_`. -/
def addBlock [Inhabited α] (a : MArr α) : MArr α :=
  { a with blocks := a.blocks ++ [List.replicate a.blockSize default] }

/-- `data_[i / block_size_][i % block_size_] = x`. -/
def writeSlot (a : MArr α) (i : Nat) (x : α) : MArr α :=
  { a with blocks := (a.blocks.set (i / a.blockSize)
      ((a.blocks[i / a.blockSize]?.getD []).set (i % a.blockSize) x)) }

/-- `data_[i / block_size_][i % block_size_]` (the address handed out for
element `i`, and its current contents). -/
def readSlot [Inhabited α] (a : MArr α) (i : Nat) : α :=
  (a.blocks[i / a.blockSize]?.getD []).getD (i % a.blockSize) default

/-- `Array::push_back`: allocate one block exactly when
`free_space_count_() == 0`, then write the new element at index
`element_count_` and increment the count. -/
def pushBack [Inhabited α] (a : MArr α) (x : α) : MArr α :=
  let a1 := if freeSpaceCount a = 0 then addBlock a else a
  let a2 := writeSlot a1 a.elementCount x
  { a2 with elementCount := a.elementCount + 1 }

/-- `Array::pop_back`: fails on an empty array; otherwise destroys the last
slot's object and decrements the count.  Physical blocks are never released;
the destructor touches only the vacated slot. -/
def popBack (a : MArr α) : Except Exc (MArr α) :=
  if a.elementCount = 0 then .error .emptyArray
  else .ok { a with elementCount := a.elementCount - 1 }

/-- Container states reachable from construction by `push_back` /
`pop_back` (the block size is positive: the C++ index arithmetic
`i / block_size_` is meaningless otherwise). -/
inductive ArrReachable [Inhabited α] : MArr α → Prop where
  | mk (B : Nat) (hB : 0 < B) : ArrReachable (mkArr α B)
  | push {a : MArr α} (x : α) : ArrReachable a → ArrReachable (pushBack a x)
  | pop {a a' : MArr α} : ArrReachable a → popBack a = .ok a' →
      ArrReachable a'

/-- The structural invariant of reachable containers: positive block size,
full-sized blocks, and the count never exceeding capacity. -/
structure ArrInv (a : MArr α) : Prop where
  posB : 0 < a.blockSize
  blockLen : ∀ b ∈ a.blocks, b.length = a.blockSize
  countLe : a.elementCount ≤ a.blocks.length * a.blockSize

end StableArray

/-! # Theorems -/

namespace GraphModel

variable {NData EData : Type}

/-! ## Adjacency-matrix cell lemmas -/

theorem matrixCell_oob_row {m : Matrix} {s t : Nat} (h : m.length ≤ s) :
    matrixCell m s t = none := by
  simp [matrixCell, List.getElem?_eq_none_iff.mpr h]

theorem length_matrixSet (m : Matrix) (s t : Nat) (v : Option EdgePtr) :
    (matrixSet m s t v).length = m.length := by
  simp [matrixSet]

theorem row_matrixSet (m : Matrix) (s t : Nat) (v : Option EdgePtr)
    (i : Nat) : ((matrixSet m s t v)[i]?.getD []).length
      = (m[i]?.getD []).length := by
  unfold matrixSet
  rcases eq_or_ne i s with rfl | hne
  · by_cases hs : i < m.length
    · rw [List.getElem?_set_self (by simpa using hs)]
      simp
    · rw [List.set_eq_of_length_le (Nat.le_of_not_lt hs)]
  · rw [List.getElem?_set_ne (Ne.symm hne)]

theorem matrixCell_matrixSet_self {m : Matrix} {s t : Nat}
    {v : Option EdgePtr} (hs : s < m.length)
    (ht : t < (m[s]?.getD []).length) :
    matrixCell (matrixSet m s t v) s t = v := by
  unfold matrixCell matrixSet
  rw [List.getElem?_set_self (by simpa using hs)]
  simp only [Option.getD_some]
  rw [List.getElem?_set_self (by simpa using ht)]
  rfl

theorem matrixCell_matrixSet_ne {m : Matrix} {s t s' t' : Nat}
    {v : Option EdgePtr} (h : s' ≠ s ∨ t' ≠ t) :
    matrixCell (matrixSet m s t v) s' t' = matrixCell m s' t' := by
  unfold matrixCell matrixSet
  rcases eq_or_ne s' s with rfl | hs
  · rcases h with h | ht
    · exact absurd rfl h
    · by_cases hs' : s' < m.length
      · rw [List.getElem?_set_self (by simpa using hs')]
        simp only [Option.getD_some]
        rw [List.getElem?_set_ne (Ne.symm ht)]
      · rw [List.set_eq_of_length_le (Nat.le_of_not_lt hs')]
  · rw [List.getElem?_set_ne (Ne.symm hs)]

theorem matrixCell_growMatrix (m : Matrix) (s t : Nat) :
    matrixCell (growMatrix m) s t = matrixCell m s t := by
  unfold matrixCell growMatrix
  rw [List.getElem?_append, List.length_map]
  by_cases hs : s < m.length
  · rw [if_pos hs, List.getElem?_map]
    cases hrow : m[s]? with
    | none => exact absurd (List.getElem?_eq_none_iff.mp hrow) (by omega)
    | some row =>
      simp only [Option.map_some', Option.getD_some]
      rw [List.getElem?_append]
      by_cases ht : t < row.length
      · rw [if_pos ht]
      · rw [if_neg ht]
        rw [List.getElem?_eq_none_iff.mpr (Nat.le_of_not_lt ht)]
        cases hd : t - row.length with
        | zero => rfl
        | succ k => rfl
  · rw [if_neg hs]
    rw [List.getElem?_eq_none_iff.mpr (Nat.le_of_not_lt hs)]
    cases hd : s - m.length with
    | zero =>
      show ((List.replicate (m.length + 1) (none : Option EdgePtr))[t]?).getD none
        = (([] : List (Option EdgePtr))[t]?).getD none
      rw [List.getElem?_replicate]
      split <;> rfl
    | succ k => rfl

theorem length_growMatrix (m : Matrix) :
    (growMatrix m).length = m.length + 1 := by
  simp [growMatrix]

theorem matrixCell_retagMatrix (tE : Nat) (m : Matrix) (s t : Nat) :
    matrixCell (retagMatrix tE m) s t = retagCell tE (matrixCell m s t) := by
  unfold matrixCell retagMatrix
  rw [List.getElem?_map]
  cases hrow : m[s]? with
  | none => simp [retagCell]
  | some row =>
    simp only [Option.map_some', Option.getD_some]
    rw [List.getElem?_map]
    cases hc : row[t]? with
    | none => simp [retagCell]
    | some c => simp [retagCell]

theorem length_retagMatrix (tE : Nat) (m : Matrix) :
    (retagMatrix tE m).length = m.length := by
  simp [retagMatrix]

theorem row_retagMatrix (tE : Nat) (m : Matrix) (i : Nat) :
    ((retagMatrix tE m)[i]?.getD []).length = (m[i]?.getD []).length := by
  unfold retagMatrix
  rw [List.getElem?_map]
  cases h : m[i]? <;> simp

theorem getElem?_snoc {β : Type} (l : List β) (a : β) (i : Nat) :
    (l ++ [a])[i]? =
      if i < l.length then l[i]? else if i = l.length then some a else none := by
  rw [List.getElem?_append]
  split
  · rfl
  · next h =>
    rcases eq_or_ne i l.length with rfl | hne
    · simp
    · rw [if_neg hne]
      exact List.getElem?_eq_none_iff.mpr (by simp; omega)

/-! ## Characterizations of the add operations -/

theorem wf_mkGraph (u : Bool) (tN tE : Nat) :
    WF (mkGraph u tN tE : Graph NData EData) := by
  constructor <;> simp [mkGraph, matrixCell]

theorem nodesAdd_self (g : Graph NData EData) (d : NData) :
    nodesAdd g g.nodes.length d
      = (.ok ⟨g.nodes.length, d⟩,
         { g with nodes := g.nodes ++ [⟨g.nodes.length, d⟩],
                  adjacencyMatrix := growMatrix g.adjacencyMatrix }) := by
  unfold nodesAdd nodesAddF growAdjacencyMatrix
  simp

theorem nodesAdd_ok {g g' : Graph NData EData} {id : Nat} {d : NData}
    {x : Node NData} (h : nodesAdd g id d = (.ok x, g')) :
    id = g.nodes.length ∧ x = ⟨g.nodes.length, d⟩ ∧
      g' = { g with
              nodes := g.nodes ++ [x],
              adjacencyMatrix := growMatrix g.adjacencyMatrix } := by
  rcases Nat.lt_trichotomy id g.nodes.length with hlt | heq | hgt
  · unfold nodesAdd nodesAddF at h
    rw [if_neg (by omega), if_pos hlt] at h
    simp at h
  · subst heq
    rw [nodesAdd_self] at h
    simp only [Prod.mk.injEq, Except.ok.injEq] at h
    obtain ⟨hx, hg⟩ := h
    subst hx
    exact ⟨rfl, rfl, hg.symm⟩
  · unfold nodesAdd nodesAddF at h
    rw [if_pos hgt] at h
    simp at h

theorem edgesAdd_self {g : Graph NData EData} {s t : Nat} (d : EData)
    (hs : s < g.nodes.length) (ht : t < g.nodes.length)
    (hfree : matrixCell g.adjacencyMatrix s t = none) :
    edgesAdd g g.edges.length s t d
      = (.ok ⟨g.edges.length, ⟨g.nodesTag, s⟩, ⟨g.nodesTag, t⟩, d⟩,
         { g with
            edges := g.edges
              ++ [⟨g.edges.length, ⟨g.nodesTag, s⟩, ⟨g.nodesTag, t⟩, d⟩],
            adjacencyMatrix :=
              (if g.isUndirected then
                 matrixSet (matrixSet g.adjacencyMatrix s t
                     (some ⟨g.edgesTag, g.edges.length⟩)) t s
                   (some ⟨g.edgesTag, g.edges.length⟩)
               else
                 matrixSet g.adjacencyMatrix s t
                   (some ⟨g.edgesTag, g.edges.length⟩)) }) := by
  unfold edgesAdd
  rw [if_neg (by omega), if_neg (by omega), if_neg (by omega), hfree]
  simp

theorem edgesAdd_ok {g g' : Graph NData EData} {id s t : Nat} {d : EData}
    {x : Edge NData EData} (h : edgesAdd g id s t d = (.ok x, g')) :
    id = g.edges.length ∧ s < g.nodes.length ∧ t < g.nodes.length ∧
    matrixCell g.adjacencyMatrix s t = none ∧
    x = ⟨g.edges.length, ⟨g.nodesTag, s⟩, ⟨g.nodesTag, t⟩, d⟩ ∧
    g' = { g with
            edges := g.edges ++ [x],
            adjacencyMatrix :=
              (if g.isUndirected then
                 matrixSet (matrixSet g.adjacencyMatrix s t
                     (some ⟨g.edgesTag, g.edges.length⟩)) t s
                   (some ⟨g.edgesTag, g.edges.length⟩)
               else
                 matrixSet g.adjacencyMatrix s t
                   (some ⟨g.edgesTag, g.edges.length⟩)) } := by
  rcases Nat.lt_trichotomy id g.edges.length with hlt | heq | hgt
  · unfold edgesAdd at h
    rw [if_neg (by omega), if_pos hlt] at h
    simp at h
  · subst heq
    by_cases hrange : s ≥ g.nodes.length ∨ t ≥ g.nodes.length
    · unfold edgesAdd at h
      rw [if_neg (by omega), if_neg (by omega), if_pos hrange] at h
      simp at h
    · push_neg at hrange
      cases hfree : matrixCell g.adjacencyMatrix s t with
      | some p =>
        unfold edgesAdd at h
        rw [if_neg (by omega), if_neg (by omega),
          if_neg (by push_neg; omega), hfree] at h
        simp at h
      | none =>
        rw [edgesAdd_self d hrange.1 hrange.2 hfree] at h
        simp only [Prod.mk.injEq, Except.ok.injEq] at h
        obtain ⟨hx, hg⟩ := h
        subst hx
        exact ⟨rfl, hrange.1, hrange.2, rfl, rfl, hg.symm⟩
  · unfold edgesAdd at h
    rw [if_pos hgt] at h
    simp at h

/-! ## Preservation of the invariants -/

theorem row_growMatrix (m : Matrix) (i : Nat) :
    ((growMatrix m)[i]?.getD []).length =
      if i < m.length then (m[i]?.getD []).length + 1
      else if i = m.length then m.length + 1 else 0 := by
  unfold growMatrix
  rw [List.getElem?_append, List.length_map]
  by_cases h : i < m.length
  · rw [if_pos h, if_pos h, List.getElem?_map]
    cases hrow : m[i]? with
    | none => exact absurd (List.getElem?_eq_none_iff.mp hrow) (by omega)
    | some row => simp
  · rw [if_neg h, if_neg h]
    rcases eq_or_ne i m.length with rfl | hne
    · simp
    · rw [if_neg hne]
      have : ([List.replicate (m.length + 1) (none : Option EdgePtr)])[i - m.length]?
          = none := List.getElem?_eq_none_iff.mpr (by simp; omega)
      rw [this]
      rfl

theorem wf_mirror_none {g : Graph NData EData} (hw : WF g)
    (hu : g.isUndirected = true) {s t : Nat}
    (hfree : matrixCell g.adjacencyMatrix s t = none) :
    matrixCell g.adjacencyMatrix t s = none := by
  cases hc : matrixCell g.adjacencyMatrix t s with
  | none => rfl
  | some q =>
    exfalso
    obtain ⟨_, e, he, hm⟩ := hw.cellSound t s q hc
    rcases hm with ⟨h1, h2⟩ | ⟨_, h1, h2⟩
    · have hmc := (hw.cellComplete q.index e he).2 hu
      rw [h1, h2, hfree] at hmc
      cases hmc
    · have hmc := (hw.cellComplete q.index e he).1
      rw [h1, h2, hfree] at hmc
      cases hmc

theorem wf_nodesAdd {g g' : Graph NData EData} {id : Nat} {d : NData}
    {x : Node NData} (hw : WF g) (h : nodesAdd g id d = (.ok x, g')) :
    WF g' := by
  obtain ⟨hid, hx, hg⟩ := nodesAdd_ok h
  subst hx
  subst hg
  have hdim := hw.dim
  constructor
  · simp [length_growMatrix, hdim]
  · intro i hi
    simp only [length_growMatrix] at hi
    show ((growMatrix g.adjacencyMatrix)[i]?.getD []).length = _
    rw [row_growMatrix]
    by_cases hlt : i < g.adjacencyMatrix.length
    · rw [if_pos hlt, hw.rows i hlt]
      simp
    · rw [if_neg hlt, if_pos (by omega)]
      simp [hdim]
  · intro i nd hnd
    rw [getElem?_snoc] at hnd
    split at hnd
    · exact hw.nodeIds i nd hnd
    · split at hnd
      · cases hnd
        show g.nodes.length = i
        omega
      · cases hnd
  · exact hw.edgeIds
  · exact hw.ptrOwners
  · intro e he
    obtain ⟨h1, h2⟩ := hw.ptrRange e he
    simp only [List.length_append, List.length_singleton]
    omega
  · intro s t p hp
    rw [show ({ g with
          nodes := g.nodes ++ [⟨g.nodes.length, d⟩],
          adjacencyMatrix := growMatrix g.adjacencyMatrix } :
        Graph NData EData).adjacencyMatrix = growMatrix g.adjacencyMatrix
        from rfl, matrixCell_growMatrix] at hp
    exact hw.cellSound s t p hp
  · intro j e hj
    obtain ⟨h1, h2⟩ := hw.cellComplete j e hj
    refine ⟨?_, fun hu => ?_⟩
    · show matrixCell (growMatrix g.adjacencyMatrix) _ _ = _
      rw [matrixCell_growMatrix]
      exact h1
    · show matrixCell (growMatrix g.adjacencyMatrix) _ _ = _
      rw [matrixCell_growMatrix]
      exact h2 hu

theorem cell_after_add (m : Matrix) (s t n : Nat) (p : EdgePtr) (u : Bool)
    (hdim : m.length = n)
    (hrows : ∀ i, i < m.length → ((m[i]?).getD []).length = n)
    (hs : s < n) (ht : t < n) (s' t' : Nat) :
    matrixCell (if u then matrixSet (matrixSet m s t (some p)) t s (some p)
                else matrixSet m s t (some p)) s' t' =
      (if s' = s ∧ t' = t then some p
       else if u = true ∧ s' = t ∧ t' = s then some p
       else matrixCell m s' t') := by
  have hself : matrixCell (matrixSet m s t (some p)) s t = some p :=
    matrixCell_matrixSet_self (by omega) (by rw [hrows s (by omega)]; omega)
  cases u with
  | false =>
    rw [if_neg (by simp)]
    by_cases hst : s' = s ∧ t' = t
    · rw [if_pos hst, hst.1, hst.2, hself]
    · rw [if_neg hst, if_neg (by simp), matrixCell_matrixSet_ne (by tauto)]
  | true =>
    rw [if_pos rfl]
    by_cases hts : s' = t ∧ t' = s
    · rw [hts.1, hts.2]
      have h2 : matrixCell
          (matrixSet (matrixSet m s t (some p)) t s (some p)) t s = some p :=
        matrixCell_matrixSet_self (by rw [length_matrixSet]; omega)
          (by rw [row_matrixSet, hrows t (by omega)]; omega)
      rw [h2]
      by_cases hst : t = s ∧ s = t
      · rw [if_pos hst]
      · rw [if_neg hst, if_pos ⟨rfl, rfl, rfl⟩]
    · rw [matrixCell_matrixSet_ne (by tauto)]
      by_cases hst : s' = s ∧ t' = t
      · rw [if_pos hst, hst.1, hst.2, hself]
      · rw [if_neg hst, if_neg (by tauto), matrixCell_matrixSet_ne (by tauto)]

theorem wf_edgesAdd {g g' : Graph NData EData} {id s t : Nat} {d : EData}
    {x : Edge NData EData} (hw : WF g) (h : edgesAdd g id s t d = (.ok x, g')) :
    WF g' := by
  obtain ⟨hid, hs, ht, hfree, hx, hg⟩ := edgesAdd_ok h
  subst hx
  subst hg
  have hdim := hw.dim
  have cellM2 := cell_after_add g.adjacencyMatrix s t g.nodes.length
    ⟨g.edgesTag, g.edges.length⟩ g.isUndirected hw.dim hw.rows hs ht
  have hlen2 : (if g.isUndirected then
      matrixSet (matrixSet g.adjacencyMatrix s t
        (some ⟨g.edgesTag, g.edges.length⟩)) t s
        (some ⟨g.edgesTag, g.edges.length⟩)
      else matrixSet g.adjacencyMatrix s t
        (some ⟨g.edgesTag, g.edges.length⟩)).length
      = g.adjacencyMatrix.length := by
    by_cases hu : g.isUndirected <;> simp [hu, length_matrixSet]
  have hrow2 : ∀ i : Nat, (((if g.isUndirected then
      matrixSet (matrixSet g.adjacencyMatrix s t
        (some ⟨g.edgesTag, g.edges.length⟩)) t s
        (some ⟨g.edgesTag, g.edges.length⟩)
      else matrixSet g.adjacencyMatrix s t
        (some ⟨g.edgesTag, g.edges.length⟩) : Matrix)[i]?).getD []).length
      = ((g.adjacencyMatrix[i]?).getD []).length := by
    intro i
    by_cases hu : g.isUndirected <;> simp [hu, row_matrixSet]
  constructor
  case dim => exact hlen2.trans hdim
  case rows =>
    intro i hi
    rw [hrow2]
    rw [hlen2] at hi
    rw [hw.rows i hi]
  case nodeIds => exact hw.nodeIds
  case edgeIds =>
    intro j e hj
    rw [getElem?_snoc] at hj
    split at hj
    · exact hw.edgeIds j e hj
    · split at hj
      · cases hj
        show g.edges.length = j
        omega
      · cases hj
  case ptrOwners =>
    intro e he
    rcases List.mem_append.mp he with h1 | h1
    · exact hw.ptrOwners e h1
    · rcases List.mem_singleton.mp h1 with rfl
      exact ⟨rfl, rfl⟩
  case ptrRange =>
    intro e he
    rcases List.mem_append.mp he with h1 | h1
    · exact hw.ptrRange e h1
    · rcases List.mem_singleton.mp h1 with rfl
      exact ⟨hs, ht⟩
  case cellSound =>
    intro s' t' q hq
    rw [show ({ g with
          edges := g.edges ++ [⟨g.edges.length, ⟨g.nodesTag, s⟩, ⟨g.nodesTag, t⟩, d⟩],
          adjacencyMatrix := (if g.isUndirected then
            matrixSet (matrixSet g.adjacencyMatrix s t
              (some ⟨g.edgesTag, g.edges.length⟩)) t s
              (some ⟨g.edgesTag, g.edges.length⟩)
            else matrixSet g.adjacencyMatrix s t
              (some ⟨g.edgesTag, g.edges.length⟩)) } :
        Graph NData EData).adjacencyMatrix = (if g.isUndirected then
            matrixSet (matrixSet g.adjacencyMatrix s t
              (some ⟨g.edgesTag, g.edges.length⟩)) t s
              (some ⟨g.edgesTag, g.edges.length⟩)
            else matrixSet g.adjacencyMatrix s t
              (some ⟨g.edgesTag, g.edges.length⟩)) from rfl, cellM2] at hq
    split at hq
    · next hc =>
      cases hq
      refine ⟨rfl, ⟨g.edges.length, ⟨g.nodesTag, s⟩, ⟨g.nodesTag, t⟩, d⟩, ?_, ?_⟩
      · rw [getElem?_snoc, if_neg (by simp), if_pos rfl]
      · exact Or.inl ⟨hc.1.symm, hc.2.symm⟩
    · split at hq
      · next hc =>
        cases hq
        refine ⟨rfl, ⟨g.edges.length, ⟨g.nodesTag, s⟩, ⟨g.nodesTag, t⟩, d⟩, ?_, ?_⟩
        · rw [getElem?_snoc, if_neg (by simp), if_pos rfl]
        · exact Or.inr ⟨hc.1, hc.2.2.symm, hc.2.1.symm⟩
      · obtain ⟨howner, e0, he0, hmatch⟩ := hw.cellSound s' t' q hq
        refine ⟨howner, e0, ?_, hmatch⟩
        obtain ⟨hqlt, -⟩ := List.getElem?_eq_some_iff.mp he0
        rw [getElem?_snoc, if_pos hqlt]
        exact he0
  case cellComplete =>
    intro j e hj
    rw [getElem?_snoc] at hj
    split at hj
    · next hjlt =>
      have hcc := (hw.cellComplete j e hj).1
      refine ⟨?_, fun hu => ?_⟩
      · show matrixCell (if g.isUndirected then
            matrixSet (matrixSet g.adjacencyMatrix s t
              (some ⟨g.edgesTag, g.edges.length⟩)) t s
              (some ⟨g.edgesTag, g.edges.length⟩)
            else matrixSet g.adjacencyMatrix s t
              (some ⟨g.edgesTag, g.edges.length⟩)) _ _ = _
        rw [cellM2,
          if_neg (by rintro ⟨a, b⟩; rw [a, b, hfree] at hcc; cases hcc),
          if_neg (by
            rintro ⟨hu, a, b⟩
            rw [a, b, wf_mirror_none hw hu hfree] at hcc
            cases hcc)]
        exact hcc
      · have hcm := (hw.cellComplete j e hj).2 hu
        show matrixCell (if g.isUndirected then
            matrixSet (matrixSet g.adjacencyMatrix s t
              (some ⟨g.edgesTag, g.edges.length⟩)) t s
              (some ⟨g.edgesTag, g.edges.length⟩)
            else matrixSet g.adjacencyMatrix s t
              (some ⟨g.edgesTag, g.edges.length⟩)) _ _ = _
        rw [cellM2,
          if_neg (by
            rintro ⟨a, b⟩
            rw [b, a, wf_mirror_none hw hu hfree] at hcc
            cases hcc),
          if_neg (by
            rintro ⟨-, a, b⟩
            rw [b, a, hfree] at hcc
            cases hcc)]
        exact hcm
    · split at hj
      · next hjeq =>
        cases hj
        refine ⟨?_, fun hu => ?_⟩
        · show matrixCell (if g.isUndirected then
              matrixSet (matrixSet g.adjacencyMatrix s t
                (some ⟨g.edgesTag, g.edges.length⟩)) t s
                (some ⟨g.edgesTag, g.edges.length⟩)
              else matrixSet g.adjacencyMatrix s t
                (some ⟨g.edgesTag, g.edges.length⟩)) _ _ = _
          rw [cellM2, if_pos ⟨rfl, rfl⟩, hjeq]
        · show matrixCell (if g.isUndirected then
              matrixSet (matrixSet g.adjacencyMatrix s t
                (some ⟨g.edgesTag, g.edges.length⟩)) t s
                (some ⟨g.edgesTag, g.edges.length⟩)
              else matrixSet g.adjacencyMatrix s t
                (some ⟨g.edgesTag, g.edges.length⟩)) _ _ = _
          rw [cellM2, hjeq]
          by_cases hst : t = s ∧ s = t
          · rw [if_pos hst]
          · rw [if_neg hst, if_pos ⟨hu, rfl, rfl⟩]
      · cases hj


/-! ## Copy construction -/

theorem listMapM_map {α β : Type} (f : α → Option β) (k : α → β) (l : List α)
    (h : ∀ a ∈ l, f a = some (k a)) : listMapM f l = some (l.map k) := by
  induction l with
  | nil => rfl
  | cons a l ih =>
    unfold listMapM
    rw [h a (List.mem_cons_self a l),
      ih (fun b hb => h b (List.mem_cons_of_mem a hb))]
    rfl

theorem updateEdgePointers_copy {g : Graph NData EData} (hw : WF g)
    (tN tE : Nat) {e : Edge NData EData} (he : e ∈ g.edges) :
    updateEdgePointers g
      { isUndirected := g.isUndirected, nodesTag := tN, edgesTag := tE,
        nodes := g.nodes, edges := g.edges, adjacencyMatrix := [] } e
      = some (retagEdge tN e) := by
  obtain ⟨ho1, ho2⟩ := hw.ptrOwners e he
  obtain ⟨hr1, hr2⟩ := hw.ptrRange e he
  unfold updateEdgePointers edgeSourceId edgeTargetId derefNode
  rw [if_pos ho1, if_pos ho2]
  cases h1 : g.nodes[e.source.index]? with
  | none => exact absurd (List.getElem?_eq_none_iff.mp h1) (by omega)
  | some nd1 =>
    cases h2 : g.nodes[e.target.index]? with
    | none => exact absurd (List.getElem?_eq_none_iff.mp h2) (by omega)
    | some nd2 =>
      have hid1 := hw.nodeIds _ _ h1
      have hid2 := hw.nodeIds _ _ h2
      simp only [Option.map_some']
      rw [if_pos (by constructor <;> [rw [hid1]; rw [hid2]] <;> assumption)]
      rw [hid1, hid2]
      rfl

theorem updateSTP_copy {g : Graph NData EData} (hw : WF g) (tN tE : Nat) :
    updateSTP g
      { isUndirected := g.isUndirected, nodesTag := tN, edgesTag := tE,
        nodes := g.nodes, edges := g.edges, adjacencyMatrix := [] }
      = some
      { isUndirected := g.isUndirected, nodesTag := tN, edgesTag := tE,
        nodes := g.nodes, edges := g.edges.map (retagEdge tN),
        adjacencyMatrix := [] } := by
  unfold updateSTP
  rw [listMapM_map _ (retagEdge tN) _
    (fun e he => updateEdgePointers_copy hw tN tE he)]
  rfl

theorem sourceId_copied {g : Graph NData EData} (hw : WF g) (tN tE : Nat)
    {e : Edge NData EData} (he : e ∈ g.edges) :
    edgeSourceId
      { isUndirected := g.isUndirected, nodesTag := tN, edgesTag := tE,
        nodes := g.nodes, edges := g.edges.map (retagEdge tN),
        adjacencyMatrix := [] } (retagEdge tN e) = some e.source.index ∧
    edgeTargetId
      { isUndirected := g.isUndirected, nodesTag := tN, edgesTag := tE,
        nodes := g.nodes, edges := g.edges.map (retagEdge tN),
        adjacencyMatrix := [] } (retagEdge tN e) = some e.target.index := by
  obtain ⟨hr1, hr2⟩ := hw.ptrRange e he
  unfold edgeSourceId edgeTargetId derefNode retagEdge
  rw [if_pos rfl, if_pos rfl]
  constructor
  · cases h1 : g.nodes[e.source.index]? with
    | none => exact absurd (List.getElem?_eq_none_iff.mp h1) (by omega)
    | some nd1 =>
      simp only [Option.map_some']
      rw [hw.nodeIds _ _ h1]
  · cases h2 : g.nodes[e.target.index]? with
    | none => exact absurd (List.getElem?_eq_none_iff.mp h2) (by omega)
    | some nd2 =>
      simp only [Option.map_some']
      rw [hw.nodeIds _ _ h2]

theorem cell_entry (m : Matrix) (s t : Nat)
    (ht : t < ((m[s]?).getD []).length) :
    ((m[s]?).getD [])[t]? = some (matrixCell m s t) := by
  unfold matrixCell
  rw [List.getElem?_eq_getElem ht]
  rfl

theorem matrix_ext {m₁ m₂ : Matrix} (hlen : m₁.length = m₂.length)
    (hrows : ∀ i : Nat, ((m₁[i]?).getD []).length = ((m₂[i]?).getD []).length)
    (hcells : ∀ s t, matrixCell m₁ s t = matrixCell m₂ s t) : m₁ = m₂ := by
  apply List.ext_getElem?
  intro i
  by_cases hi : i < m₁.length
  · cases h1 : m₁[i]? with
    | none => exact absurd (List.getElem?_eq_none_iff.mp h1) (by omega)
    | some r1 =>
      cases h2 : m₂[i]? with
      | none =>
        exact absurd (List.getElem?_eq_none_iff.mp h2) (by omega)
      | some r2 =>
        have hrl : r1.length = r2.length := by
          have := hrows i
          rw [h1, h2] at this
          exact this
        congr 1
        apply List.ext_getElem?
        intro t
        by_cases htl : t < r1.length
        · have e1 : ((m₁[i]?).getD [])[t]? = some (matrixCell m₁ i t) :=
            cell_entry m₁ i t (by rw [h1]; exact htl)
          have e2 : ((m₂[i]?).getD [])[t]? = some (matrixCell m₂ i t) :=
            cell_entry m₂ i t (by rw [h2]; exact hrl ▸ htl)
          rw [h1] at e1
          rw [h2] at e2
          simp only [Option.getD_some] at e1 e2
          rw [e1, e2, hcells]
        · rw [List.getElem?_eq_none_iff.mpr (by omega),
            List.getElem?_eq_none_iff.mpr (by omega)]
  · rw [List.getElem?_eq_none_iff.mpr (by omega),
      List.getElem?_eq_none_iff.mpr (by omega)]


theorem length_addMatrix (m : Matrix) (s t a b : Nat) (p : Option EdgePtr)
    (c : Bool) :
    (if c then matrixSet (matrixSet m s t p) a b p
     else matrixSet m s t p).length = m.length := by
  cases c <;> simp [length_matrixSet]

theorem row_addMatrix (m : Matrix) (s t a b : Nat) (p : Option EdgePtr)
    (c : Bool) (i : Nat) :
    (((if c then matrixSet (matrixSet m s t p) a b p
        else matrixSet m s t p) : Matrix)[i]?.getD []).length
      = ((m[i]?).getD []).length := by
  cases c <;> simp [row_matrixSet]

theorem camGo_cons (g1 : Graph NData EData) (e' : Edge NData EData)
    (rest : List (Edge NData EData)) (i : Nat) (m : Matrix) (s t : Nat)
    (u : Bool) (tg : Nat)
    (hs : edgeSourceId g1 e' = some s) (ht : edgeTargetId g1 e' = some t)
    (hu : g1.isUndirected = u) (htg : g1.edgesTag = tg) :
    camGo g1 (e' :: rest) i m = camGo g1 rest (i + 1)
      (if u then
        matrixSet (matrixSet m s t (some ⟨tg, i⟩)) t s (some ⟨tg, i⟩)
       else matrixSet m s t (some ⟨tg, i⟩)) := by
  subst hu
  subst htg
  rw [camGo, hs, ht]

theorem camGo_copy {g : Graph NData EData} (hw : WF g) (tN tE : Nat)
    (rest : List (Edge NData EData)) :
    ∀ (k : Nat) (m : Matrix),
    rest = (g.edges.map (retagEdge tN)).drop k →
    m.length = g.nodes.length →
    (∀ i : Nat, i < m.length → ((m[i]?).getD []).length = g.nodes.length) →
    (∀ s' t', matrixCell m s' t' =
      (matrixCell g.adjacencyMatrix s' t').bind
        (fun p => if p.index < k then some ⟨tE, p.index⟩ else none)) →
    ∃ M, camGo
        { isUndirected := g.isUndirected, nodesTag := tN, edgesTag := tE,
          nodes := g.nodes, edges := g.edges.map (retagEdge tN),
          adjacencyMatrix := [] } rest k m = some M ∧
      M.length = g.nodes.length ∧
      (∀ i : Nat, i < M.length → ((M[i]?).getD []).length = g.nodes.length) ∧
      (∀ s' t', matrixCell M s' t'
        = retagCell tE (matrixCell g.adjacencyMatrix s' t')) := by
  induction rest with
  | nil =>
    intro k m hdrop hdim hrows hcells
    refine ⟨m, rfl, hdim, hrows, ?_⟩
    intro s' t'
    rw [hcells]
    have hk : g.edges.length ≤ k := by
      have hlen := congrArg List.length hdrop
      simp only [List.length_nil, List.length_drop, List.length_map] at hlen
      omega
    cases hc : matrixCell g.adjacencyMatrix s' t' with
    | none => rfl
    | some p =>
      obtain ⟨-, e0, he0, -⟩ := hw.cellSound s' t' p hc
      obtain ⟨hlt, -⟩ := List.getElem?_eq_some_iff.mp he0
      show (if p.index < k then some (⟨tE, p.index⟩ : EdgePtr) else none) = _
      rw [if_pos (by omega)]
      rfl
  | cons e' rest' ih =>
    intro k m hdrop hdim hrows hcells
    have hk0 : (g.edges.map (retagEdge tN))[k]? = some e' := by
      have h0 : ((g.edges.map (retagEdge tN)).drop k)[0]? = some e' := by
        rw [← hdrop]
        simp
      rw [List.getElem?_drop] at h0
      simpa using h0
    rw [List.getElem?_map] at hk0
    cases hke : g.edges[k]? with
    | none =>
      rw [hke] at hk0
      cases hk0
    | some e =>
      rw [hke] at hk0
      simp only [Option.map_some'] at hk0
      have he' := Option.some.inj hk0
      subst he'
      have hemem : e ∈ g.edges := List.getElem?_mem hke
      obtain ⟨hsI, htI⟩ := hw.ptrRange e hemem
      obtain ⟨hsrc, htgt⟩ := sourceId_copied hw tN tE hemem
      have hrest' : rest' = (g.edges.map (retagEdge tN)).drop (k + 1) := by
        have htail := congrArg List.tail hdrop
        simp only [List.tail_cons] at htail
        rw [List.tail_drop] at htail
        exact htail
      rw [camGo_cons _ _ _ _ _ _ _ g.isUndirected tE hsrc htgt rfl rfl]
      have cellM2 := cell_after_add m e.source.index e.target.index
        g.nodes.length ⟨tE, k⟩ g.isUndirected hdim hrows hsI htI
      refine ih (k + 1) _ hrest' ?_ ?_ ?_
      · rw [length_addMatrix]
        exact hdim
      · intro i hi
        rw [row_addMatrix]
        rw [length_addMatrix] at hi
        exact hrows i hi
      · intro s' t'
        rw [cellM2]
        by_cases h1 : s' = e.source.index ∧ t' = e.target.index
        · rw [if_pos h1, h1.1, h1.2, (hw.cellComplete k e hke).1]
          simp
        · by_cases h2 : g.isUndirected = true ∧ s' = e.target.index ∧
              t' = e.source.index
          · rw [if_neg h1, if_pos h2, h2.2.1, h2.2.2,
              (hw.cellComplete k e hke).2 h2.1]
            simp
          · rw [if_neg h1, if_neg h2, hcells s' t']
            cases hc : matrixCell g.adjacencyMatrix s' t' with
            | none => rfl
            | some p =>
              show (if p.index < k then some (⟨tE, p.index⟩ : EdgePtr)
                  else none)
                = (if p.index < k + 1 then some (⟨tE, p.index⟩ : EdgePtr)
                  else none)
              by_cases hpk : p.index < k
              · rw [if_pos hpk, if_pos (by omega)]
              · rw [if_neg hpk]
                by_cases hpk1 : p.index < k + 1
                · exfalso
                  have hpe : p.index = k := by omega
                  obtain ⟨-, e0, he0, hmatch⟩ := hw.cellSound s' t' p hc
                  rw [hpe, hke] at he0
                  have he0' := Option.some.inj he0
                  subst he0'
                  rcases hmatch with ⟨hx, hy⟩ | ⟨hu, hx, hy⟩
                  · exact h1 ⟨hx.symm, hy.symm⟩
                  · exact h2 ⟨hu, hy.symm, hx.symm⟩
                · rw [if_neg hpk1]


theorem constructAdjacencyMatrix_copied {g : Graph NData EData} (hw : WF g)
    (tN tE : Nat) :
    constructAdjacencyMatrix
      { isUndirected := g.isUndirected, nodesTag := tN, edgesTag := tE,
        nodes := g.nodes, edges := g.edges.map (retagEdge tN),
        adjacencyMatrix := [] } = some (copiedGraph g tN tE) := by
  have hrepl : ∀ s' t', matrixCell
      (List.replicate g.nodes.length
        (List.replicate g.nodes.length (none : Option EdgePtr))) s' t'
      = none := by
    intro s' t'
    unfold matrixCell
    rw [List.getElem?_replicate]
    split
    · simp only [Option.getD_some]
      rw [List.getElem?_replicate]
      split <;> rfl
    · rfl
  obtain ⟨M, hM, hMdim, hMrows, hMcells⟩ :=
    camGo_copy hw tN tE (g.edges.map (retagEdge tN)) 0
      (List.replicate g.nodes.length (List.replicate g.nodes.length none))
      (by simp) (by simp)
      (by
        intro i hi
        simp only [List.length_replicate] at hi
        rw [List.getElem?_replicate, if_pos hi]
        simp)
      (by
        intro s' t'
        rw [hrepl]
        cases hc : matrixCell g.adjacencyMatrix s' t' with
        | none => rfl
        | some p =>
          show (none : Option EdgePtr)
            = if p.index < 0 then some ⟨tE, p.index⟩ else none
          rw [if_neg (by omega)])
  have hMeq : M = retagMatrix tE g.adjacencyMatrix := by
    apply matrix_ext
    · rw [hMdim, length_retagMatrix, hw.dim]
    · intro i
      rw [row_retagMatrix]
      by_cases hi : i < M.length
      · rw [hMrows i hi, hw.rows i (by
          have h1 := hMdim
          have h2 := hw.dim
          omega)]
      · have h1 : M[i]? = none := List.getElem?_eq_none_iff.mpr (by omega)
        have h2 : g.adjacencyMatrix[i]? = none :=
          List.getElem?_eq_none_iff.mpr (by
            have h3 := hMdim
            have h4 := hw.dim
            omega)
        rw [h1, h2]
    · intro s t
      rw [hMcells, matrixCell_retagMatrix]
  unfold constructAdjacencyMatrix
  dsimp only
  rw [hM, Option.map_some', hMeq]
  rfl

theorem copyGraph_eq {g : Graph NData EData} (hw : WF g) (tN tE : Nat) :
    copyGraph g tN tE = some (copiedGraph g tN tE) := by
  unfold copyGraph
  dsimp only
  rw [updateSTP_copy hw tN tE, Option.some_bind]
  exact constructAdjacencyMatrix_copied hw tN tE

theorem wf_copiedGraph {g : Graph NData EData} (hw : WF g) (tN tE : Nat) :
    WF (copiedGraph g tN tE) := by
  constructor
  case dim =>
    show (retagMatrix tE g.adjacencyMatrix).length = g.nodes.length
    rw [length_retagMatrix, hw.dim]
  case rows =>
    intro i hi
    rw [show (copiedGraph g tN tE).adjacencyMatrix
      = retagMatrix tE g.adjacencyMatrix from rfl] at hi ⊢
    rw [row_retagMatrix]
    rw [length_retagMatrix] at hi
    exact hw.rows i hi
  case nodeIds =>
    exact hw.nodeIds
  case edgeIds =>
    intro j e hj
    rw [show (copiedGraph g tN tE).edges
      = g.edges.map (retagEdge tN) from rfl, List.getElem?_map] at hj
    cases h0 : g.edges[j]? with
    | none =>
      rw [h0] at hj
      cases hj
    | some e0 =>
      rw [h0] at hj
      simp only [Option.map_some'] at hj
      cases hj
      exact hw.edgeIds j e0 h0
  case ptrOwners =>
    intro e he
    rw [show (copiedGraph g tN tE).edges
      = g.edges.map (retagEdge tN) from rfl] at he
    rcases List.mem_map.mp he with ⟨e0, he0, rfl⟩
    exact ⟨rfl, rfl⟩
  case ptrRange =>
    intro e he
    rw [show (copiedGraph g tN tE).edges
      = g.edges.map (retagEdge tN) from rfl] at he
    rcases List.mem_map.mp he with ⟨e0, he0, rfl⟩
    exact hw.ptrRange e0 he0
  case cellSound =>
    intro s t p hp
    rw [show (copiedGraph g tN tE).adjacencyMatrix
      = retagMatrix tE g.adjacencyMatrix from rfl,
      matrixCell_retagMatrix] at hp
    cases hc : matrixCell g.adjacencyMatrix s t with
    | none =>
      rw [hc] at hp
      cases hp
    | some q =>
      rw [hc] at hp
      cases hp
      obtain ⟨-, e0, he0, hmatch⟩ := hw.cellSound s t q hc
      refine ⟨rfl, retagEdge tN e0, ?_, ?_⟩
      · rw [show (copiedGraph g tN tE).edges
          = g.edges.map (retagEdge tN) from rfl, List.getElem?_map,
          show (⟨tE, q.index⟩ : EdgePtr).index = q.index from rfl, he0]
        rfl
      · exact hmatch
  case cellComplete =>
    intro j e hj
    rw [show (copiedGraph g tN tE).edges
      = g.edges.map (retagEdge tN) from rfl, List.getElem?_map] at hj
    cases h0 : g.edges[j]? with
    | none =>
      rw [h0] at hj
      cases hj
    | some e0 =>
      rw [h0] at hj
      simp only [Option.map_some'] at hj
      cases hj
      obtain ⟨h1, h2⟩ := hw.cellComplete j e0 h0
      refine ⟨?_, fun hu => ?_⟩
      · show matrixCell (retagMatrix tE g.adjacencyMatrix) _ _ = _
        rw [show (retagEdge tN e0).source.index = e0.source.index from rfl,
          show (retagEdge tN e0).target.index = e0.target.index from rfl,
          matrixCell_retagMatrix, h1]
        rfl
      · show matrixCell (retagMatrix tE g.adjacencyMatrix) _ _ = _
        rw [show (retagEdge tN e0).source.index = e0.source.index from rfl,
          show (retagEdge tN e0).target.index = e0.target.index from rfl,
          matrixCell_retagMatrix, h2 hu]
        rfl

theorem wf_copyGraph {g c : Graph NData EData} (hw : WF g) {tN tE : Nat}
    (h : copyGraph g tN tE = some c) : WF c := by
  rw [copyGraph_eq hw tN tE] at h
  cases Option.some.inj h
  exact wf_copiedGraph hw tN tE

/-! ## Move construction and reachability -/

theorem moveGraph_fst (g : Graph NData EData) (tN tE : Nat) :
    (moveGraph g tN tE).1 = g := rfl

theorem moveGraph_snd (g : Graph NData EData) (tN tE : Nat) :
    (moveGraph g tN tE).2 = mkGraph g.isUndirected tN tE := rfl

theorem importNode_cases {pN : List Char → NData} {g g' : Graph NData EData}
    {s : ISS} (h : importNode pN g s = .ok g') :
    g' = g ∨ ∃ id d x, nodesAdd g id d = (.ok x, g') := by
  unfold importNode at h
  dsimp only at h
  split at h
  · cases h
    exact Or.inl rfl
  · split at h
    · cases h
    · split at h
      · next x g1 heq =>
        cases h
        exact Or.inr ⟨_, _, x, heq⟩
      · cases h

theorem importEdge_cases {pE : List Char → EData} {g g' : Graph NData EData}
    {s : ISS} (h : importEdge pE g s = .ok g') :
    g' = g ∨ ∃ id a b d x, edgesAdd g id a b d = (.ok x, g') := by
  unfold importEdge at h
  dsimp only at h
  split at h
  · cases h
    exact Or.inl rfl
  · split at h
    · cases h
    · split at h
      · cases h
      · split at h
        · cases h
        · split at h
          · next x g1 heq =>
            cases h
            exact Or.inr ⟨_, _, _, _, x, heq⟩
          · cases h

theorem importLine_cases {pN : List Char → NData} {pE : List Char → EData}
    {g g' : Graph NData EData} {l : List Char}
    (h : importLine pN pE g l = .ok g') :
    g' = g ∨ (∃ id d x, nodesAdd g id d = (.ok x, g')) ∨
      (∃ id a b d x, edgesAdd g id a b d = (.ok x, g')) := by
  unfold importLine at h
  dsimp only at h
  split at h
  · cases h
    exact Or.inl rfl
  · split at h
    · rcases importNode_cases h with h1 | h1
      · exact Or.inl h1
      · exact Or.inr (Or.inl h1)
    · split at h
      · rcases importEdge_cases h with h1 | h1
        · exact Or.inl h1
        · exact Or.inr (Or.inr h1)
      · cases h
        exact Or.inl rfl

theorem wf_importGraph {pN : List Char → NData} {pE : List Char → EData}
    {g g' : Graph NData EData} {ls : List (List Char)} (hw : WF g)
    (h : importGraph pN pE g ls = .ok g') : WF g' := by
  induction ls generalizing g with
  | nil =>
    cases h
    exact hw
  | cons l ls ih =>
    unfold importGraph at h
    cases hline : importLine pN pE g l with
    | error e =>
      rw [hline] at h
      cases h
    | ok g1 =>
      rw [hline] at h
      rcases importLine_cases hline with rfl | ⟨id, d, x, hadd⟩ |
        ⟨id, a, b, d, x, hadd⟩
      · exact ih hw h
      · exact ih (wf_nodesAdd hw hadd) h
      · exact ih (wf_edgesAdd hw hadd) h

theorem wf_of_reachable {g : Graph NData EData} (h : Reachable g) : WF g := by
  induction h with
  | empty u tN tE => exact wf_mkGraph u tN tE
  | addNode id d _ hadd ih => exact wf_nodesAdd ih hadd
  | addEdge id a b d _ hadd ih => exact wf_edgesAdd ih hadd
  | copy tN tE _ hcopy ih => exact wf_copyGraph ih hcopy
  | moveTarget tN tE _ ih => exact ih
  | moveSource tN tE _ ih => exact wf_mkGraph _ tN tE
  | importStep pN pE lines _ himp ih => exact wf_importGraph ih himp


/-! ## The demo graphs are reachable and well-formed -/

theorem demoDirected_reachable : Reachable demoDirected :=
  Reachable.addEdge (g := demoDirected4) 1 1 2 201
    (Reachable.addEdge (g := demoDirected3) 0 0 1 200
      (Reachable.addNode (g := demoDirected2) 2 102
        (Reachable.addNode (g := demoDirected1) 1 101
          (Reachable.addNode (g := demoDirected0) 0 100
            (Reachable.empty false 0 1) rfl) rfl) rfl) rfl) rfl

theorem demoUndirected_reachable : Reachable demoUndirected :=
  Reachable.addEdge (g := demoUndirected4) 1 1 2 201
    (Reachable.addEdge (g := demoUndirected3) 0 0 1 200
      (Reachable.addNode (g := demoUndirected2) 2 102
        (Reachable.addNode (g := demoUndirected1) 1 101
          (Reachable.addNode (g := demoUndirected0) 0 100
            (Reachable.empty true 2 3) rfl) rfl) rfl) rfl) rfl

theorem demoDirected_wf : WF demoDirected :=
  wf_of_reachable demoDirected_reachable

theorem demoUndirected_wf : WF demoUndirected :=
  wf_of_reachable demoUndirected_reachable

/-! ## Failure cases of the add operations -/

theorem nodesAdd_gt {g : Graph NData EData} {id : Nat} {d : NData}
    (h : id > g.nodes.length) :
    nodesAdd g id d = (.error .invalidIdentifier, g) := by
  unfold nodesAdd nodesAddF
  rw [if_pos h]

theorem nodesAdd_lt {g : Graph NData EData} {id : Nat} {d : NData}
    (h : id < g.nodes.length) :
    nodesAdd g id d = (.error .conflictingItem, g) := by
  unfold nodesAdd nodesAddF
  rw [if_neg (by omega), if_pos h]

theorem edgesAdd_gt {g : Graph NData EData} {id s t : Nat} {d : EData}
    (h : id > g.edges.length) :
    edgesAdd g id s t d = (.error .invalidIdentifier, g) := by
  unfold edgesAdd
  rw [if_pos h]

theorem edgesAdd_lt {g : Graph NData EData} {id s t : Nat} {d : EData}
    (h : id < g.edges.length) :
    edgesAdd g id s t d = (.error .conflictingItem, g) := by
  unfold edgesAdd
  rw [if_neg (by omega), if_pos h]

theorem nodesAdd_fst_invalid {g : Graph NData EData} {id : Nat} {d : NData} :
    (nodesAdd g id d).1 = Except.error Exc.invalidIdentifier ↔
      id > g.nodes.length := by
  constructor
  · intro h
    by_contra hle
    rcases Nat.lt_or_ge id g.nodes.length with hlt | hge
    · rw [nodesAdd_lt hlt] at h
      cases h
    · have hid : id = g.nodes.length := by omega
      subst hid
      rw [nodesAdd_self] at h
      cases h
  · intro h
    rw [nodesAdd_gt h]

theorem edgesAdd_fst_invalid {g : Graph NData EData} {id s t : Nat}
    {d : EData} :
    (edgesAdd g id s t d).1 = Except.error Exc.invalidIdentifier ↔
      id > g.edges.length := by
  constructor
  · intro h
    by_contra hle
    rcases Nat.lt_or_ge id g.edges.length with hlt | hge
    · rw [edgesAdd_lt hlt] at h
      cases h
    · have hid : id = g.edges.length := by omega
      subst hid
      by_cases hrange : s ≥ g.nodes.length ∨ t ≥ g.nodes.length
      · unfold edgesAdd at h
        rw [if_neg (by omega), if_neg (by omega), if_pos hrange] at h
        cases h
      · push_neg at hrange
        cases hfree : matrixCell g.adjacencyMatrix s t with
        | some p =>
          unfold edgesAdd at h
          rw [if_neg (by omega), if_neg (by omega),
            if_neg (by push_neg; omega), hfree] at h
          simp at h
        | none =>
          rw [edgesAdd_self d hrange.1 hrange.2 hfree] at h
          cases h
  · intro h
    rw [edgesAdd_gt h]

/-- C2: Transactional node add.  With `id` equal to the current node count,
if the node append or the adjacency-matrix growth fails,
`UnavailableMemoryException` is raised, the just-added node (if any) is
popped again, and the post-call size, every `exists(i)` answer, and the
matrix dimensions (row count and every row length) equal their pre-call
values. -/
theorem claim_C2 {NData EData : Type} (g : Graph NData EData) (id : Nat)
    (d : NData) (fa fg : Bool) (hid : id = nodesSize g)
    (hfail : fa = true ∨ fg = true) :
    (nodesAddF fa fg g id d).1 = .error .unavailableMemory ∧
    nodesSize (nodesAddF fa fg g id d).2 = nodesSize g ∧
    (∀ i, nodesExists (nodesAddF fa fg g id d).2 i = nodesExists g i) ∧
    (nodesAddF fa fg g id d).2.adjacencyMatrix.length
      = g.adjacencyMatrix.length ∧
    (∀ i : Nat, (((nodesAddF fa fg g id d).2.adjacencyMatrix[i]?).getD
        []).length = ((g.adjacencyMatrix[i]?).getD []).length) := by
  have hstate : nodesAddF fa fg g id d = (.error .unavailableMemory, g) := by
    have hid2 : id = g.nodes.length := hid
    subst hid2
    cases fa with
    | true =>
      unfold nodesAddF
      rw [if_neg (by omega), if_neg (by omega), if_pos rfl]
    | false =>
      rcases hfail with hfa | hfg
      · cases hfa
      · subst hfg
        unfold nodesAddF growAdjacencyMatrix
        rw [if_neg (by omega), if_neg (by omega), if_neg (by simp),
          if_pos rfl]
        dsimp only
        rw [List.dropLast_concat]
  rw [hstate]
  exact ⟨rfl, rfl, fun i => rfl, rfl, fun i => rfl⟩

/-- C2 witness: injecting a matrix-growth failure into a node add on the
demo graph raises `UnavailableMemoryException` and preserves all
observables. -/
theorem claim_C2_witness :
    (nodesAddF false true demoDirected 3 999).1
        = .error .unavailableMemory ∧
    nodesSize (nodesAddF false true demoDirected 3 999).2
        = nodesSize demoDirected ∧
    (∀ i, nodesExists (nodesAddF false true demoDirected 3 999).2 i
        = nodesExists demoDirected i) ∧
    (nodesAddF false true demoDirected 3 999).2.adjacencyMatrix.length
        = demoDirected.adjacencyMatrix.length ∧
    (∀ i : Nat,
      (((nodesAddF false true demoDirected 3 999).2.adjacencyMatrix[i]?).getD
        []).length = ((demoDirected.adjacencyMatrix[i]?).getD []).length) :=
  claim_C2 demoDirected 3 999 false true (by rfl) (Or.inr rfl)

/-- C6: Add id validation.  For both stores, an explicit id greater than the
current size raises `InvalidIdentifier` with the store unchanged, an id less
than the current size raises `ConflictingItem` with the store unchanged, and
`InvalidIdentifier` arises exactly when `id > size` — so only `id == size`
passes the id validation.  On an edge store of size 2, `add(id=5, 0, 1, …)`
raises `InvalidIdentifier` and `add(id=1, 0, 2, …)` raises
`ConflictingItem`, both leaving the graph unchanged. -/
theorem claim_C6 :
    (∀ (NData EData : Type) (g : Graph NData EData) (id : Nat) (d : NData),
      (id > nodesSize g → nodesAdd g id d = (.error .invalidIdentifier, g)) ∧
      (id < nodesSize g → nodesAdd g id d = (.error .conflictingItem, g)) ∧
      ((nodesAdd g id d).1 = .error .invalidIdentifier ↔ id > nodesSize g)) ∧
    (∀ (NData EData : Type) (g : Graph NData EData) (id s t : Nat)
        (d : EData),
      (id > edgesSize g →
        edgesAdd g id s t d = (.error .invalidIdentifier, g)) ∧
      (id < edgesSize g →
        edgesAdd g id s t d = (.error .conflictingItem, g)) ∧
      ((edgesAdd g id s t d).1 = .error .invalidIdentifier ↔
        id > edgesSize g)) ∧
    edgesSize demoDirected = 2 ∧
    edgesAdd demoDirected 5 0 1 999 = (.error .invalidIdentifier,
      demoDirected) ∧
    edgesAdd demoDirected 1 0 2 999 = (.error .conflictingItem,
      demoDirected) := by
  refine ⟨?_, ?_, rfl, ?_, ?_⟩
  · intro NData EData g id d
    exact ⟨fun h => nodesAdd_gt h, fun h => nodesAdd_lt h,
      nodesAdd_fst_invalid⟩
  · intro NData EData g id s t d
    exact ⟨fun h => edgesAdd_gt h, fun h => edgesAdd_lt h,
      edgesAdd_fst_invalid⟩
  · exact edgesAdd_gt (by decide)
  · exact edgesAdd_lt (by decide)

/-- C7: `exists(source, target)` asymmetry.  The pair-form existence test
raises `NonexistingItem` exactly when `source` or `target` is at least the
node count (which equals the adjacency-matrix dimension); for every in-range
pair it returns `true` exactly when an edge occupies
`matrix[source][target]`, and plain `false` — no exception — when the nodes
exist but are unconnected. -/
theorem claim_C7 {NData EData : Type} (g : Graph NData EData) (hw : WF g)
    (s t : Nat) :
    g.adjacencyMatrix.length = nodesSize g ∧
    (edgesExistsPair g s t = .error .nonexistingItem ↔
      s ≥ nodesSize g ∨ t ≥ nodesSize g) ∧
    (s < nodesSize g → t < nodesSize g →
      edgesExistsPair g s t
        = .ok (matrixCell g.adjacencyMatrix s t).isSome) := by
  have hdim : g.adjacencyMatrix.length = nodesSize g := hw.dim
  refine ⟨hdim, ⟨?_, ?_⟩, ?_⟩
  · intro h
    unfold edgesExistsPair at h
    by_cases hc : s ≥ g.adjacencyMatrix.length ∨ t ≥ g.adjacencyMatrix.length
    · rw [hdim] at hc
      exact hc
    · rw [if_neg hc] at h
      cases h
  · intro h
    unfold edgesExistsPair
    rw [if_pos (by rw [hdim]; exact h)]
  · intro h1 h2
    unfold edgesExistsPair
    rw [if_neg (by rw [hdim]; omega)]

/-- C7 witness: on the demo graph, `exists(0, 2)` answers `false` without
raising (nodes exist, unconnected) while `exists(0, 7)` raises
`NonexistingItem`. -/
theorem claim_C7_witness :
    edgesExistsPair demoDirected 0 2 = .ok false ∧
    edgesExistsPair demoDirected 0 7 = .error .nonexistingItem := by
  constructor
  · rw [(claim_C7 demoDirected demoDirected_wf 0 2).2.2 (by decide)
      (by decide)]
    rfl
  · exact ((claim_C7 demoDirected demoDirected_wf 0 7).2.1).2
      (Or.inr (by decide))

/-- C8: Move correctness.  Move construction hands the moved-to graph
exactly the moved-from graph's contents — node records, edge records,
adjacency matrix, and the storage ownership tags, so every previously held
address still dereferences identically and no reference rebuild happens —
while the moved-from graph becomes an empty graph, equal to a freshly
constructed one, on which subsequent adds behave exactly as on a fresh
graph. -/
theorem claim_C8 {NData EData : Type} (g : Graph NData EData) (tN tE : Nat) :
    (moveGraph g tN tE).1 = g ∧
    (moveGraph g tN tE).1.nodes = g.nodes ∧
    (moveGraph g tN tE).1.edges = g.edges ∧
    (moveGraph g tN tE).1.adjacencyMatrix = g.adjacencyMatrix ∧
    (moveGraph g tN tE).1.nodesTag = g.nodesTag ∧
    (moveGraph g tN tE).1.edgesTag = g.edgesTag ∧
    (∀ p, derefNode (moveGraph g tN tE).1 p = derefNode g p) ∧
    (∀ p, derefEdge (moveGraph g tN tE).1 p = derefEdge g p) ∧
    (moveGraph g tN tE).2 = mkGraph g.isUndirected tN tE ∧
    nodesSize (moveGraph g tN tE).2 = 0 ∧
    edgesSize (moveGraph g tN tE).2 = 0 ∧
    (moveGraph g tN tE).2.adjacencyMatrix = [] ∧
    (∀ id d, nodesAdd (moveGraph g tN tE).2 id d
      = nodesAdd (mkGraph g.isUndirected tN tE) id d) ∧
    (∀ id s t d, edgesAdd (moveGraph g tN tE).2 id s t d
      = edgesAdd (mkGraph g.isUndirected tN tE) id s t d) :=
  ⟨rfl, rfl, rfl, rfl, rfl, rfl, fun p => rfl, fun p => rfl, rfl, rfl, rfl,
    rfl, fun id d => rfl, fun id s t d => rfl⟩

/-- C10: Self-loops are permitted.  If node `s` exists and the diagonal cell
`matrix[s][s]` is free, adding an edge from `s` to `s` (with the next id)
succeeds, both endpoint pointers name node `s`, afterwards `exists(s, s)` is
true, and the new edge occupies exactly the single diagonal cell — every
other cell is unchanged (in an undirected graph the mirror write hits the
same cell). -/
theorem claim_C10 {NData EData : Type} (g : Graph NData EData) (hw : WF g)
    (s : Nat) (d : EData) (hs : s < nodesSize g)
    (hfree : matrixCell g.adjacencyMatrix s s = none) :
    ∃ e g', edgesAdd g (edgesSize g) s s d = (.ok e, g') ∧
      e.source = ⟨g.nodesTag, s⟩ ∧ e.target = ⟨g.nodesTag, s⟩ ∧
      e.id = edgesSize g ∧
      edgesExistsPair g' s s = .ok true ∧
      matrixCell g'.adjacencyMatrix s s
        = some ⟨g.edgesTag, edgesSize g⟩ ∧
      (∀ a b, ¬(a = s ∧ b = s) →
        matrixCell g'.adjacencyMatrix a b
          = matrixCell g.adjacencyMatrix a b) := by
  have hs2 : s < g.nodes.length := hs
  have hcell := cell_after_add g.adjacencyMatrix s s (nodesSize g)
    ⟨g.edgesTag, g.edges.length⟩ g.isUndirected hw.dim hw.rows hs hs
  have hc1 : matrixCell (if g.isUndirected then
      matrixSet (matrixSet g.adjacencyMatrix s s
        (some ⟨g.edgesTag, g.edges.length⟩)) s s
        (some ⟨g.edgesTag, g.edges.length⟩)
      else matrixSet g.adjacencyMatrix s s
        (some ⟨g.edgesTag, g.edges.length⟩)) s s
      = some ⟨g.edgesTag, g.edges.length⟩ := by
    rw [hcell s s, if_pos ⟨rfl, rfl⟩]
  refine ⟨_, _, edgesAdd_self d hs hs hfree, rfl, rfl, rfl, ?_, hc1, ?_⟩
  · unfold edgesExistsPair
    rw [if_neg (by
      rw [length_addMatrix, hw.dim]
      omega)]
    rw [hc1]
    rfl
  · intro a b hne
    rw [hcell a b, if_neg hne, if_neg (fun hc => hne ⟨hc.2.1, hc.2.2⟩)]

/-- C10 witness: a self-loop on node 0 of the undirected demo graph
succeeds, makes `exists(0, 0)` true, and occupies only the diagonal cell. -/
theorem claim_C10_witness :
    0 < nodesSize demoUndirected ∧
    (∃ e g', edgesAdd demoUndirected (edgesSize demoUndirected) 0 0 77
        = (.ok e, g') ∧
      e.source = ⟨demoUndirected.nodesTag, 0⟩ ∧
      e.target = ⟨demoUndirected.nodesTag, 0⟩ ∧
      e.id = edgesSize demoUndirected ∧
      edgesExistsPair g' 0 0 = .ok true ∧
      matrixCell g'.adjacencyMatrix 0 0
        = some ⟨demoUndirected.edgesTag, edgesSize demoUndirected⟩ ∧
      (∀ a b, ¬(a = 0 ∧ b = 0) →
        matrixCell g'.adjacencyMatrix a b
          = matrixCell demoUndirected.adjacencyMatrix a b)) :=
  ⟨by decide,
   claim_C10 demoUndirected demoUndirected_wf 0 77 (by decide) (by rfl)⟩


theorem wf_endpointIds {g : Graph NData EData} (hw : WF g)
    {e : Edge NData EData} (he : e ∈ g.edges) :
    edgeSourceId g e = some e.source.index ∧
    edgeTargetId g e = some e.target.index := by
  obtain ⟨ho1, ho2⟩ := hw.ptrOwners e he
  obtain ⟨hr1, hr2⟩ := hw.ptrRange e he
  unfold edgeSourceId edgeTargetId derefNode
  rw [if_pos ho1, if_pos ho2]
  constructor
  · cases h1 : g.nodes[e.source.index]? with
    | none => exact absurd (List.getElem?_eq_none_iff.mp h1) (by omega)
    | some nd =>
      simp only [Option.map_some']
      rw [hw.nodeIds _ _ h1]
  · cases h2 : g.nodes[e.target.index]? with
    | none => exact absurd (List.getElem?_eq_none_iff.mp h2) (by omega)
    | some nd =>
      simp only [Option.map_some']
      rw [hw.nodeIds _ _ h2]

theorem wf_cell_symm {g : Graph NData EData} (hw : WF g)
    (hu : g.isUndirected = true) (s t : Nat) :
    matrixCell g.adjacencyMatrix t s = matrixCell g.adjacencyMatrix s t := by
  cases hc : matrixCell g.adjacencyMatrix s t with
  | none => exact wf_mirror_none hw hu hc
  | some p =>
    obtain ⟨how, e0, he0, hmatch⟩ := hw.cellSound s t p hc
    obtain ⟨h1, h2⟩ := hw.cellComplete p.index e0 he0
    obtain ⟨po, pi⟩ := p
    have how2 : po = g.edgesTag := how
    subst how2
    rcases hmatch with ⟨ha, hb⟩ | ⟨-, ha, hb⟩
    · have hm := h2 hu
      rw [ha, hb] at hm
      exact hm
    · have hm := h1
      rw [ha, hb] at hm
      exact hm

/-- C4: Dense id invariant.  In every reachable graph the node stored at
position `i` has id `i` and the edge stored at position `j` has id `j`;
every successful add (either overload reduces to the explicit-id form)
assigns id equal to the pre-call size, and both explicit-id adds reject any
other id — `InvalidIdentifier` above the size, `ConflictingItem` below —
leaving the store unchanged. -/
theorem claim_C4 {NData EData : Type} (g : Graph NData EData)
    (hr : Reachable g) :
    (∀ (i : Nat) (nd : Node NData), g.nodes[i]? = some nd → nd.id = i) ∧
    (∀ (j : Nat) (e : Edge NData EData), g.edges[j]? = some e → e.id = j) ∧
    (∀ (g0 g0' : Graph NData EData) (id : Nat) (d : NData) (x : Node NData),
      nodesAdd g0 id d = (.ok x, g0') →
        id = nodesSize g0 ∧ x.id = nodesSize g0) ∧
    (∀ (g0 g0' : Graph NData EData) (id a b : Nat) (d : EData)
        (x : Edge NData EData),
      edgesAdd g0 id a b d = (.ok x, g0') →
        id = edgesSize g0 ∧ x.id = edgesSize g0) ∧
    (∀ (g0 : Graph NData EData) (id : Nat) (d : NData), id ≠ nodesSize g0 →
      (nodesAdd g0 id d).2 = g0 ∧
      (nodesAdd g0 id d).1 = .error
        (if nodesSize g0 < id then Exc.invalidIdentifier
         else Exc.conflictingItem)) ∧
    (∀ (g0 : Graph NData EData) (id a b : Nat) (d : EData),
      id ≠ edgesSize g0 →
      (edgesAdd g0 id a b d).2 = g0 ∧
      (edgesAdd g0 id a b d).1 = .error
        (if edgesSize g0 < id then Exc.invalidIdentifier
         else Exc.conflictingItem)) := by
  have hw := wf_of_reachable hr
  refine ⟨hw.nodeIds, hw.edgeIds, ?_, ?_, ?_, ?_⟩
  · intro g0 g0' id d x h
    obtain ⟨h1, h2, -⟩ := nodesAdd_ok h
    exact ⟨h1, by rw [h2]; rfl⟩
  · intro g0 g0' id a b d x h
    obtain ⟨h1, -, -, -, h2, -⟩ := edgesAdd_ok h
    exact ⟨h1, by rw [h2]; rfl⟩
  · intro g0 id d hne
    rcases Nat.lt_or_ge id (nodesSize g0) with hlt | hge
    · rw [nodesAdd_lt hlt]
      exact ⟨rfl, by rw [if_neg (by omega)]⟩
    · have hgt : id > nodesSize g0 := by
        rcases Nat.eq_or_lt_of_le hge with heq | hlt2
        · exact absurd heq.symm hne
        · exact hlt2
      rw [nodesAdd_gt hgt]
      exact ⟨rfl, by rw [if_pos hgt]⟩
  · intro g0 id a b d hne
    rcases Nat.lt_or_ge id (edgesSize g0) with hlt | hge
    · rw [edgesAdd_lt hlt]
      exact ⟨rfl, by rw [if_neg (by omega)]⟩
    · have hgt : id > edgesSize g0 := by
        rcases Nat.eq_or_lt_of_le hge with heq | hlt2
        · exact absurd heq.symm hne
        · exact hlt2
      rw [edgesAdd_gt hgt]
      exact ⟨rfl, by rw [if_pos hgt]⟩

/-- C4 witness: the invariant instantiated on the reachable demo graph. -/
theorem claim_C4_witness :
    (∀ (i : Nat) (nd : Node Nat), demoDirected.nodes[i]? = some nd →
      nd.id = i) ∧
    (∀ (j : Nat) (e : Edge Nat Nat), demoDirected.edges[j]? = some e →
      e.id = j) ∧
    (∀ (g0 g0' : Graph Nat Nat) (id : Nat) (d : Nat) (x : Node Nat),
      nodesAdd g0 id d = (.ok x, g0') →
        id = nodesSize g0 ∧ x.id = nodesSize g0) ∧
    (∀ (g0 g0' : Graph Nat Nat) (id a b : Nat) (d : Nat)
        (x : Edge Nat Nat),
      edgesAdd g0 id a b d = (.ok x, g0') →
        id = edgesSize g0 ∧ x.id = edgesSize g0) ∧
    (∀ (g0 : Graph Nat Nat) (id : Nat) (d : Nat), id ≠ nodesSize g0 →
      (nodesAdd g0 id d).2 = g0 ∧
      (nodesAdd g0 id d).1 = .error
        (if nodesSize g0 < id then Exc.invalidIdentifier
         else Exc.conflictingItem)) ∧
    (∀ (g0 : Graph Nat Nat) (id a b : Nat) (d : Nat),
      id ≠ edgesSize g0 →
      (edgesAdd g0 id a b d).2 = g0 ∧
      (edgesAdd g0 id a b d).1 = .error
        (if edgesSize g0 < id then Exc.invalidIdentifier
         else Exc.conflictingItem)) :=
  claim_C4 demoDirected demoDirected_reachable

/-- C5: No-multigraph and undirected symmetry.  In every reachable graph at
most one edge connects any ordered pair of endpoint ids; and in an
undirected graph `exists(s, t)` and `exists(t, s)` agree for every pair
(including the exception cases) and `get(s, t)` and `get(t, s)` return the
identical edge record (the same stored address). -/
theorem claim_C5 {NData EData : Type} (g : Graph NData EData)
    (hr : Reachable g) :
    (∀ (j k : Nat) (e1 e2 : Edge NData EData),
      g.edges[j]? = some e1 → g.edges[k]? = some e2 →
      edgeSourceId g e1 = edgeSourceId g e2 →
      edgeTargetId g e1 = edgeTargetId g e2 → j = k) ∧
    (g.isUndirected = true →
      (∀ s t, edgesExistsPair g s t = edgesExistsPair g t s) ∧
      (∀ s t, edgesGetPair g s t = edgesGetPair g t s)) := by
  have hw := wf_of_reachable hr
  constructor
  · intro j k e1 e2 hj hk hs ht
    obtain ⟨hs1, ht1⟩ := wf_endpointIds hw (List.getElem?_mem hj)
    obtain ⟨hs2, ht2⟩ := wf_endpointIds hw (List.getElem?_mem hk)
    rw [hs1, hs2] at hs
    rw [ht1, ht2] at ht
    have c1 := (hw.cellComplete j e1 hj).1
    have c2 := (hw.cellComplete k e2 hk).1
    rw [Option.some.inj hs, Option.some.inj ht, c2] at c1
    simp only [Option.some.injEq, EdgePtr.mk.injEq] at c1
    exact c1.2.symm
  · intro hu
    constructor
    · intro s t
      unfold edgesExistsPair
      by_cases hin : s ≥ g.adjacencyMatrix.length ∨
          t ≥ g.adjacencyMatrix.length
      · rw [if_pos hin, if_pos (Or.symm hin)]
      · rw [if_neg hin, if_neg (fun hc => hin (Or.symm hc)),
          wf_cell_symm hw hu s t]
    · intro s t
      unfold edgesGetPair
      by_cases hin : s ≥ g.adjacencyMatrix.length ∨
          t ≥ g.adjacencyMatrix.length
      · rw [if_pos hin, if_pos (Or.symm hin)]
      · rw [if_neg hin, if_neg (fun hc => hin (Or.symm hc)),
          wf_cell_symm hw hu s t]

/-- C5 witness: in the undirected demo graph, the 0–1 edge answers both
`exists(0, 1)` and `exists(1, 0)`, and `get` returns one identical record
(edge 0 of the edge store). -/
theorem claim_C5_witness :
    edgesExistsPair demoUndirected 0 1 = .ok true ∧
    edgesExistsPair demoUndirected 1 0 = .ok true ∧
    edgesExistsPair demoUndirected 0 1 = edgesExistsPair demoUndirected 1 0 ∧
    edgesGetPair demoUndirected 0 1 = edgesGetPair demoUndirected 1 0 ∧
    edgesGetPair demoUndirected 0 1
      = .ok ⟨demoUndirected.edgesTag, 0⟩ := by
  have h := claim_C5 demoUndirected demoUndirected_reachable
  exact ⟨by rfl, by rfl, (h.2 rfl).1 0 1, (h.2 rfl).2 0 1, by rfl⟩

/-- C1: Copy fidelity.  For a well-formed graph `G` copied into fresh
storage (tags different from `G`'s), every node of the copy equals the
corresponding node of `G`; every edge of the copy keeps its id, payload and
endpoint ids, and its endpoint pointers are owned by the copy's own node
store — never `G`'s — and dereference successfully inside the copy; and
every occupied adjacency-matrix cell of the copy holds a pointer owned by
the copy's own edge store — never `G`'s — that dereferences to an edge
record of the copy. -/
theorem claim_C1 {NData EData : Type} (g c : Graph NData EData) (tN tE : Nat)
    (hw : WF g) (htN : tN ≠ g.nodesTag) (htE : tE ≠ g.edgesTag)
    (hc : copyGraph g tN tE = some c) :
    (∀ i : Nat, c.nodes[i]? = g.nodes[i]?) ∧
    (∀ (j : Nat) (e : Edge NData EData), g.edges[j]? = some e →
      ∃ e', c.edges[j]? = some e' ∧ e'.id = e.id ∧ e'.data = e.data ∧
        edgeSourceId c e' = edgeSourceId g e ∧
        edgeTargetId c e' = edgeTargetId g e ∧
        e'.source.owner = c.nodesTag ∧ e'.target.owner = c.nodesTag ∧
        e'.source.owner ≠ g.nodesTag ∧ e'.target.owner ≠ g.nodesTag ∧
        (derefNode c e'.source).isSome = true ∧
        (derefNode c e'.target).isSome = true) ∧
    (∀ j : Nat, (c.edges[j]?).isSome = (g.edges[j]?).isSome) ∧
    (∀ s t p, matrixCell c.adjacencyMatrix s t = some p →
      p.owner = c.edgesTag ∧ p.owner ≠ g.edgesTag ∧
      (derefEdge c p).isSome = true) := by
  rw [copyGraph_eq hw tN tE] at hc
  obtain rfl : copiedGraph g tN tE = c := Option.some.inj hc
  have hwc := wf_copiedGraph hw tN tE
  refine ⟨fun i => rfl, ?_, ?_, ?_⟩
  · intro j e hj
    have hmem : e ∈ g.edges := List.getElem?_mem hj
    have hidx := hw.ptrRange e hmem
    refine ⟨retagEdge tN e, ?_, rfl, rfl, ?_, ?_, rfl, rfl, htN, htN, ?_, ?_⟩
    · rw [show (copiedGraph g tN tE).edges = g.edges.map (retagEdge tN)
        from rfl, List.getElem?_map, hj]
      rfl
    · rw [(wf_endpointIds hwc (by
        rw [show (copiedGraph g tN tE).edges = g.edges.map (retagEdge tN)
          from rfl]
        exact List.mem_map_of_mem _ hmem)).1,
        (wf_endpointIds hw hmem).1]
      rfl
    · rw [(wf_endpointIds hwc (by
        rw [show (copiedGraph g tN tE).edges = g.edges.map (retagEdge tN)
          from rfl]
        exact List.mem_map_of_mem _ hmem)).2,
        (wf_endpointIds hw hmem).2]
      rfl
    · unfold derefNode
      rw [if_pos (show (retagEdge tN e).source.owner
          = (copiedGraph g tN tE).nodesTag from rfl),
        show (copiedGraph g tN tE).nodes = g.nodes from rfl,
        List.getElem?_eq_getElem
          (show (retagEdge tN e).source.index < g.nodes.length from hidx.1)]
      rfl
    · unfold derefNode
      rw [if_pos (show (retagEdge tN e).target.owner
          = (copiedGraph g tN tE).nodesTag from rfl),
        show (copiedGraph g tN tE).nodes = g.nodes from rfl,
        List.getElem?_eq_getElem
          (show (retagEdge tN e).target.index < g.nodes.length from hidx.2)]
      rfl
  · intro j
    rw [show (copiedGraph g tN tE).edges = g.edges.map (retagEdge tN)
      from rfl, List.getElem?_map]
    cases g.edges[j]? <;> rfl
  · intro s t p hp
    rw [show (copiedGraph g tN tE).adjacencyMatrix
      = retagMatrix tE g.adjacencyMatrix from rfl,
      matrixCell_retagMatrix] at hp
    cases hc0 : matrixCell g.adjacencyMatrix s t with
    | none =>
      rw [hc0] at hp
      cases hp
    | some q =>
      rw [hc0] at hp
      cases hp
      obtain ⟨-, e0, he0, -⟩ := hw.cellSound s t q hc0
      refine ⟨rfl, htE, ?_⟩
      unfold derefEdge
      rw [if_pos (show (⟨tE, q.index⟩ : EdgePtr).owner
          = (copiedGraph g tN tE).edgesTag from rfl),
        show (copiedGraph g tN tE).edges
          = g.edges.map (retagEdge tN) from rfl, List.getElem?_map,
        show (⟨tE, q.index⟩ : EdgePtr).index = q.index from rfl, he0]
      rfl

/-- C1 witness: copying the demo graph into fresh storage (tags 5, 6)
preserves nodes and reseats every pointer into the copy's own stores. -/
theorem claim_C1_witness :
    (5 ≠ demoDirected.nodesTag) ∧ (6 ≠ demoDirected.edgesTag) ∧
    copyGraph demoDirected 5 6 = some (copiedGraph demoDirected 5 6) ∧
    (∀ i : Nat, (copiedGraph demoDirected 5 6).nodes[i]?
      = demoDirected.nodes[i]?) ∧
    (∀ s t p,
      matrixCell (copiedGraph demoDirected 5 6).adjacencyMatrix s t = some p →
      p.owner = (copiedGraph demoDirected 5 6).edgesTag ∧
      p.owner ≠ demoDirected.edgesTag ∧
      (derefEdge (copiedGraph demoDirected 5 6) p).isSome = true) := by
  have h := claim_C1 demoDirected (copiedGraph demoDirected 5 6) 5 6
    demoDirected_wf (by decide) (by decide) (by rfl)
  exact ⟨by decide, by decide, by rfl, h.1, h.2.2.2⟩

end GraphModel

namespace StableArray

variable {α : Type}

/-! ## Structural facts about `push_back` / `pop_back` -/

theorem blockSize_pushBack [Inhabited α] (a : MArr α) (x : α) :
    (pushBack a x).blockSize = a.blockSize := by
  unfold pushBack writeSlot addBlock
  dsimp only
  split <;> rfl

theorem count_pushBack [Inhabited α] (a : MArr α) (x : α) :
    (pushBack a x).elementCount = a.elementCount + 1 := rfl

theorem blocks_length_pushBack [Inhabited α] (a : MArr α) (x : α) :
    (pushBack a x).blocks.length
      = a.blocks.length + (if freeSpaceCount a = 0 then 1 else 0) := by
  unfold pushBack writeSlot addBlock
  dsimp only
  split <;> simp

theorem arrInv_pushBack [Inhabited α] {a : MArr α} (inv : ArrInv a)
    (x : α) : ArrInv (pushBack a x) := by
  have hB := inv.posB
  have hcap := inv.countLe
  by_cases hfree : freeSpaceCount a = 0
  · have hcnt : a.elementCount = a.blocks.length * a.blockSize := by
      unfold freeSpaceCount at hfree
      omega
    have hidx : a.elementCount / a.blockSize = a.blocks.length := by
      rw [hcnt, Nat.mul_div_left _ hB]
    constructor
    · rw [blockSize_pushBack]
      exact hB
    · intro b hb
      rw [blockSize_pushBack]
      unfold pushBack writeSlot addBlock at hb
      dsimp only at hb
      rw [if_pos hfree] at hb
      dsimp only [addBlock] at hb
      rcases List.mem_or_eq_of_mem_set hb with hb1 | hb1
      · rcases List.mem_append.mp hb1 with hb2 | hb2
        · exact inv.blockLen b hb2
        · rw [List.mem_singleton.mp hb2]
          simp
      · subst hb1
        rw [List.length_set, hidx, GraphModel.getElem?_snoc,
          if_neg (lt_irrefl _), if_pos rfl]
        simp
    · rw [count_pushBack, blocks_length_pushBack, blockSize_pushBack,
        if_pos hfree]
      have hexp : (a.blocks.length + 1) * a.blockSize
          = a.blocks.length * a.blockSize + a.blockSize := by
        ring
      omega
  · have hlt : a.elementCount < a.blocks.length * a.blockSize := by
      unfold freeSpaceCount at hfree
      omega
    have hdivlt : a.elementCount / a.blockSize < a.blocks.length :=
      (Nat.div_lt_iff_lt_mul hB).mpr hlt
    constructor
    · rw [blockSize_pushBack]
      exact hB
    · intro b hb
      rw [blockSize_pushBack]
      unfold pushBack writeSlot addBlock at hb
      dsimp only at hb
      rw [if_neg hfree] at hb
      rcases List.mem_or_eq_of_mem_set hb with hb1 | hb1
      · exact inv.blockLen b hb1
      · subst hb1
        rw [List.length_set]
        cases hblock : a.blocks[a.elementCount / a.blockSize]? with
        | none => exact absurd (List.getElem?_eq_none_iff.mp hblock) (by omega)
        | some blk =>
          simp only [Option.getD_some]
          exact inv.blockLen blk (List.getElem?_mem hblock)
    · rw [count_pushBack, blocks_length_pushBack, blockSize_pushBack,
        if_neg hfree]
      simp only [Nat.add_zero]
      omega

theorem arrInv_of_reachable [Inhabited α] {a : MArr α}
    (h : ArrReachable a) : ArrInv a := by
  induction h with
  | mk B hB =>
    refine ⟨hB, ?_, ?_⟩
    · intro b hb
      cases hb
    · show (0 : Nat) ≤ 0 * B
      simp
  | push x _ ih => exact arrInv_pushBack ih x
  | pop _ hpop ih =>
    unfold popBack at hpop
    split at hpop
    · cases hpop
    · cases hpop
      refine ⟨ih.posB, ih.blockLen, ?_⟩
      dsimp only
      have := ih.countLe
      omega

/-- C3 counterexample: the claim "append allocates exactly one new block
whenever size is an exact multiple of B, also in states reached via
remove_last" fails.  Push one element onto a fresh block-size-10 container
and pop it: the resulting reachable state has size 0 (a multiple of 10), yet
the next append allocates no block, because a block with free capacity
already exists (`free_space_count_() ≠ 0`). -/
theorem claim_C3_counterexample :
    popBack (pushBack (mkArr Nat 10) 7)
        = .ok (⟨10, [(List.replicate 10 0).set 0 7], 0⟩ : MArr Nat) ∧
    ArrReachable (⟨10, [(List.replicate 10 0).set 0 7], 0⟩ : MArr Nat) ∧
    (⟨10, [(List.replicate 10 0).set 0 7], 0⟩ : MArr Nat).elementCount % 10
        = 0 ∧
    (⟨10, [(List.replicate 10 0).set 0 7], 0⟩ : MArr Nat).blocks.length
        = 1 ∧
    (pushBack (⟨10, [(List.replicate 10 0).set 0 7], 0⟩ : MArr Nat) 8
        ).blocks.length = 1 :=
  ⟨rfl,
   ArrReachable.pop (ArrReachable.push 7 (ArrReachable.mk 10 (by decide)))
     rfl,
   rfl, rfl, rfl⟩

/-- C3 (amended): in every reachable container state, append allocates
exactly one new block iff the size equals the allocated capacity
(`blocks × B`, equivalently `free_space_count_() == 0`); such a size is
always an exact multiple of B (the converse holds only in append-only
histories); and the write touches only the slot of the new element, so the
address and contents of every previously stored element are unchanged. -/
theorem claim_C3_amended [Inhabited α] (a : MArr α) (x : α)
    (hr : ArrReachable a) :
    ((pushBack a x).blocks.length
      = a.blocks.length + (if freeSpaceCount a = 0 then 1 else 0)) ∧
    (freeSpaceCount a = 0 ↔
      a.elementCount = a.blocks.length * a.blockSize) ∧
    (freeSpaceCount a = 0 → a.elementCount % a.blockSize = 0) ∧
    (∀ i, i < a.elementCount → readSlot (pushBack a x) i = readSlot a i) ∧
    (pushBack a x).blockSize = a.blockSize := by
  have inv := arrInv_of_reachable hr
  have hB := inv.posB
  have hcap := inv.countLe
  refine ⟨blocks_length_pushBack a x, ?_, ?_, ?_, blockSize_pushBack a x⟩
  · unfold freeSpaceCount
    omega
  · intro h
    have hcnt : a.elementCount = a.blocks.length * a.blockSize := by
      unfold freeSpaceCount at h
      omega
    rw [hcnt]
    exact Nat.mul_mod_left _ _
  · intro i hi
    have hiB : i / a.blockSize < a.blocks.length :=
      (Nat.div_lt_iff_lt_mul hB).mpr (by omega)
    unfold readSlot pushBack writeSlot
    dsimp only
    by_cases hfree : freeSpaceCount a = 0
    · rw [if_pos hfree]
      have hcnt : a.elementCount = a.blocks.length * a.blockSize := by
        unfold freeSpaceCount at hfree
        omega
      have hwidx : a.elementCount / a.blockSize = a.blocks.length := by
        rw [hcnt, Nat.mul_div_left _ hB]
      dsimp only [addBlock]
      rw [List.getElem?_set_ne (by omega)]
      rw [GraphModel.getElem?_snoc, if_pos hiB]
    · rw [if_neg hfree]
      by_cases hrow : i / a.blockSize = a.elementCount / a.blockSize
      · rw [← hrow, List.getElem?_set_self (by omega)]
        simp only [Option.getD_some]
        have hne : i % a.blockSize ≠ a.elementCount % a.blockSize := by
          intro heq
          have h1 := Nat.div_add_mod i a.blockSize
          have h2 := Nat.div_add_mod a.elementCount a.blockSize
          rw [hrow] at h1
          omega
        rw [List.getD_eq_getElem?_getD, List.getD_eq_getElem?_getD,
          List.getElem?_set_ne (by omega)]
      · rw [List.getElem?_set_ne (by omega)]

/-- C3 witness: the amended statement instantiated at a freshly pushed
container. -/
theorem claim_C3_amended_witness :
    ((pushBack (pushBack (mkArr Nat 10) 5) 6).blocks.length
      = (pushBack (mkArr Nat 10) 5).blocks.length +
        (if freeSpaceCount (pushBack (mkArr Nat 10) 5) = 0 then 1 else 0)) ∧
    (freeSpaceCount (pushBack (mkArr Nat 10) 5) = 0 ↔
      (pushBack (mkArr Nat 10) 5).elementCount
        = (pushBack (mkArr Nat 10) 5).blocks.length
            * (pushBack (mkArr Nat 10) 5).blockSize) ∧
    (freeSpaceCount (pushBack (mkArr Nat 10) 5) = 0 →
      (pushBack (mkArr Nat 10) 5).elementCount
          % (pushBack (mkArr Nat 10) 5).blockSize = 0) ∧
    (∀ i, i < (pushBack (mkArr Nat 10) 5).elementCount →
      readSlot (pushBack (pushBack (mkArr Nat 10) 5) 6) i
        = readSlot (pushBack (mkArr Nat 10) 5) i) ∧
    (pushBack (pushBack (mkArr Nat 10) 5) 6).blockSize
      = (pushBack (mkArr Nat 10) 5).blockSize :=
  claim_C3_amended (pushBack (mkArr Nat 10) 5) 6
    (ArrReachable.push 5 (ArrReachable.mk 10 (by decide)))

end StableArray

namespace GraphModel

variable {NData EData : Type}

/-! ## Decimal numerals round-trip -/

theorem charVal_digitChar {d : Nat} (h : d < 10) :
    charVal (digitChar d) = d := by
  interval_cases d <;> decide

theorem isDigit_digitChar {d : Nat} (h : d < 10) :
    (digitChar d).isDigit = true := by
  interval_cases d <;> decide

theorem natToChars_all_digit (n : Nat) :
    ∀ c ∈ natToChars n, c.isDigit = true := by
  intro c hc
  unfold natToChars at hc
  split at hc
  · rw [List.mem_singleton.mp hc]
    decide
  · obtain ⟨d, hd, rfl⟩ := List.mem_map.mp hc
    exact isDigit_digitChar (Nat.digits_lt_base' (List.mem_reverse.mp hd))

theorem not_mem_natToChars {c : Char} (hc : c.isDigit = false) (n : Nat) :
    c ∉ natToChars n := by
  intro hm
  rw [natToChars_all_digit n c hm] at hc
  cases hc

theorem foldl_digits (l : List Nat) (hl : ∀ d ∈ l, d < 10) :
    ∀ acc : Nat,
    ((l.reverse.map digitChar).foldl (fun a c => a * 10 + charVal c) acc)
      = acc * 10 ^ l.length + Nat.ofDigits 10 l := by
  induction l with
  | nil =>
    intro acc
    simp [Nat.ofDigits]
  | cons d l ih =>
    intro acc
    rw [List.reverse_cons, List.map_append, List.foldl_append,
      ih (fun x hx => hl x (List.mem_cons_of_mem d hx))]
    show (acc * 10 ^ l.length + Nat.ofDigits 10 l) * 10
        + charVal (digitChar d) = _
    rw [charVal_digitChar (hl d (List.mem_cons_self d l)),
      Nat.ofDigits_cons, List.length_cons, pow_succ]
    ring

theorem stoiAll_natToChars (n : Nat) : stoiAll (natToChars n) = some n := by
  by_cases h0 : n = 0
  · subst h0
    decide
  · unfold stoiAll
    rw [if_pos ?hc]
    case hc =>
      constructor
      · unfold natToChars
        rw [if_neg h0]
        simp [Nat.digits_ne_nil_iff_ne_zero.mpr h0]
      · rw [List.all_eq_true]
        exact natToChars_all_digit n
    congr 1
    unfold natToChars
    rw [if_neg h0]
    rw [foldl_digits (Nat.digits 10 n) (fun d hd => Nat.digits_lt_base' hd) 0]
    rw [Nat.ofDigits_digits]
    simp

/-! ## Stream-level parsing of the exported lines -/

theorem issGet_cons (c : Char) (r : List Char) :
    issGet ⟨c :: r, true⟩ = ⟨r, true⟩ := rfl

theorem splitAtChar_append {c : Char} {pre : List Char} (post : List Char)
    (h : c ∉ pre) : splitAtChar c (pre ++ c :: post) = some (pre, post) := by
  induction pre with
  | nil => simp [splitAtChar]
  | cons a l ih =>
    rw [List.cons_append]
    unfold splitAtChar
    rw [if_neg (by
      intro hac
      exact h (by rw [hac]; exact List.mem_cons_self c l))]
    rw [ih (fun hm => h (List.mem_cons_of_mem a hm))]
    rfl

theorem issGetline_split {delim : Char} {pre : List Char} (post : List Char)
    (h : delim ∉ pre) :
    issGetline ⟨pre ++ delim :: post, true⟩ delim = (pre, ⟨post, true⟩) := by
  unfold issGetline
  dsimp only
  rw [if_pos rfl, splitAtChar_append post h]

theorem parseId_digits {delim : Char} (n : Nat) (post : List Char)
    (hdelim : delim.isDigit = false) :
    parseId ⟨natToChars n ++ delim :: post, true⟩ delim
      = .ok (n, ⟨post, true⟩) := by
  unfold parseId
  rw [issGetline_split post (not_mem_natToChars hdelim n)]
  dsimp only
  rw [stoiAll_natToChars]

theorem importNode_line {g g' : Graph NData EData} {pN : List Char → NData}
    {id : Nat} {payload : List Char} {x : Node NData}
    (hp : '}' ∉ payload)
    (hadd : nodesAdd g id (pN payload) = (.ok x, g')) :
    importNode pN g
      ⟨'(' :: (natToChars id ++ ' ' :: '{' :: (payload ++ ['}', ')'])), true⟩
      = .ok g' := by
  unfold importNode
  dsimp only
  rw [if_neg (by simp), issGet_cons,
    parseId_digits id ('{' :: (payload ++ ['}', ')'])) (by decide)]
  dsimp only
  rw [issGet_cons, issGetline_split [')'] hp]
  dsimp only
  rw [hadd]

theorem importEdge_line {g g' : Graph NData EData} {pE : List Char → EData}
    {sid eid tid : Nat} {payload : List Char} {x : Edge NData EData}
    (hp : '}' ∉ payload)
    (hadd : edgesAdd g eid sid tid (pE payload) = (.ok x, g')) :
    importEdge pE g
      ⟨'(' :: (natToChars sid ++ ')' :: '-' :: '[' ::
        (natToChars eid ++ ' ' :: '{' ::
          (payload ++ '}' :: ']' :: '-' :: '>' :: '(' ::
            (natToChars tid ++ [')'])))), true⟩
      = .ok g' := by
  unfold importEdge
  dsimp only
  rw [if_neg (by simp), issGet_cons,
    parseId_digits sid ('-' :: '[' :: (natToChars eid ++ ' ' :: '{' ::
      (payload ++ '}' :: ']' :: '-' :: '>' :: '(' ::
        (natToChars tid ++ [')'])))) (by decide)]
  dsimp only
  rw [issGet_cons, issGet_cons,
    parseId_digits eid ('{' :: (payload ++ '}' :: ']' :: '-' :: '>' :: '(' ::
      (natToChars tid ++ [')']))) (by decide)]
  dsimp only
  rw [issGet_cons,
    issGetline_split (']' :: '-' :: '>' :: '(' :: (natToChars tid ++ [')']))
      hp]
  dsimp only
  rw [issGet_cons, issGet_cons, issGet_cons, issGet_cons,
    parseId_digits tid [] (by decide)]
  dsimp only
  rw [hadd]

theorem importLine_nodeLine {g g' : Graph NData EData}
    (pN : List Char → NData) (pE : List Char → EData)
    {id : Nat} {payload : List Char} {x : Node NData}
    (hp : '}' ∉ payload)
    (hadd : nodesAdd g id (pN payload) = (.ok x, g')) :
    importLine pN pE g
      ('n' :: 'o' :: 'd' :: 'e' :: ' ' :: '(' ::
        (natToChars id ++ ' ' :: '{' :: (payload ++ ['}', ')'])))
      = .ok g' := by
  unfold importLine
  dsimp only
  rw [if_neg (by simp)]
  rw [show ('n' :: 'o' :: 'd' :: 'e' :: ' ' :: '(' ::
      (natToChars id ++ ' ' :: '{' :: (payload ++ ['}', ')'])) : List Char)
      = "node".toList ++ ' ' :: ('(' :: (natToChars id ++ ' ' :: '{' ::
        (payload ++ ['}', ')']))) from rfl]
  rw [issGetline_split _ (by decide)]
  dsimp only
  rw [if_pos rfl]
  exact importNode_line hp hadd

theorem importLine_edgeLine {g g' : Graph NData EData}
    (pN : List Char → NData) (pE : List Char → EData)
    {sid eid tid : Nat} {payload : List Char} {x : Edge NData EData}
    (hp : '}' ∉ payload)
    (hadd : edgesAdd g eid sid tid (pE payload) = (.ok x, g')) :
    importLine pN pE g
      ('e' :: 'd' :: 'g' :: 'e' :: ' ' :: '(' ::
        (natToChars sid ++ ')' :: '-' :: '[' ::
          (natToChars eid ++ ' ' :: '{' ::
            (payload ++ '}' :: ']' :: '-' :: '>' :: '(' ::
              (natToChars tid ++ [')'])))))
      = .ok g' := by
  unfold importLine
  dsimp only
  rw [if_neg (by simp)]
  rw [show ('e' :: 'd' :: 'g' :: 'e' :: ' ' :: '(' ::
      (natToChars sid ++ ')' :: '-' :: '[' ::
        (natToChars eid ++ ' ' :: '{' ::
          (payload ++ '}' :: ']' :: '-' :: '>' :: '(' ::
            (natToChars tid ++ [')'])))) : List Char)
      = "edge".toList ++ ' ' :: ('(' :: (natToChars sid ++ ')' :: '-' :: '['
        :: (natToChars eid ++ ' ' :: '{' ::
          (payload ++ '}' :: ']' :: '-' :: '>' :: '(' ::
            (natToChars tid ++ [')']))))) from rfl]
  rw [issGetline_split _ (by decide)]
  dsimp only
  rw [if_neg (by decide), if_pos rfl]
  exact importEdge_line hp hadd


theorem exportNodeLine_eq (printN : NData → List Char) (nd : Node NData) :
    exportNodeLine printN nd = 'n' :: 'o' :: 'd' :: 'e' :: ' ' :: '(' ::
      (natToChars nd.id ++ ' ' :: '{' :: (printN nd.data ++ ['}', ')'])) := by
  unfold exportNodeLine
  simp only [List.append_assoc]
  rfl

theorem exportEdgeLine_eq {g : Graph NData EData} (hw : WF g)
    (printE : EData → List Char) {e : Edge NData EData} (he : e ∈ g.edges) :
    exportEdgeLine printE g e = some ('e' :: 'd' :: 'g' :: 'e' :: ' ' :: '('
      :: (natToChars e.source.index ++ ')' :: '-' :: '[' ::
        (natToChars e.id ++ ' ' :: '{' ::
          (printE e.data ++ '}' :: ']' :: '-' :: '>' :: '(' ::
            (natToChars e.target.index ++ [')']))))) := by
  unfold exportEdgeLine
  rw [(wf_endpointIds hw he).1, (wf_endpointIds hw he).2]
  dsimp only
  simp only [List.append_assoc]
  rfl

theorem importGraph_append {pN : List Char → NData} {pE : List Char → EData}
    {g g' : Graph NData EData} {ls1 : List (List Char)}
    (h1 : importGraph pN pE g ls1 = .ok g') (ls2 : List (List Char)) :
    importGraph pN pE g (ls1 ++ ls2) = importGraph pN pE g' ls2 := by
  induction ls1 generalizing g with
  | nil =>
    cases h1
    rfl
  | cons l ls ih =>
    rw [List.cons_append]
    conv_lhs => rw [importGraph]
    unfold importGraph at h1
    cases hline : importLine pN pE g l with
    | error e =>
      rw [hline] at h1
      dsimp only at h1
      exact absurd h1 (by simp)
    | ok g1 =>
      rw [hline] at h1
      dsimp only at h1 ⊢
      exact ih h1

theorem growMatrix_replicate (k : Nat) :
    growMatrix (List.replicate k (List.replicate k (none : Option EdgePtr)))
      = List.replicate (k + 1) (List.replicate (k + 1) none) := by
  unfold growMatrix
  rw [List.map_replicate, List.length_replicate, ← List.replicate_succ',
    ← List.replicate_succ']

theorem matrixCell_replicate_none (n s t : Nat) :
    matrixCell (List.replicate n (List.replicate n (none : Option EdgePtr)))
      s t = none := by
  unfold matrixCell
  rw [List.getElem?_replicate]
  split
  · simp only [Option.getD_some]
    rw [List.getElem?_replicate]
    split <;> rfl
  · rfl

theorem wf_nodesOnly {g : Graph NData EData} (hw : WF g) (u : Bool)
    (tN' tE' : Nat) :
    WF (⟨u, tN', tE', g.nodes, [],
      List.replicate g.nodes.length
        (List.replicate g.nodes.length none)⟩ : Graph NData EData) := by
  constructor
  · simp
  · intro i hi
    simp only [List.length_replicate] at hi
    show ((List.replicate _ _)[i]?.getD []).length = _
    rw [List.getElem?_replicate, if_pos hi]
    simp
  · exact hw.nodeIds
  · intro j e hj
    simp at hj
  · intro e he
    cases he
  · intro e he
    cases he
  · intro s t p hp
    rw [show (⟨u, tN', tE', g.nodes, [],
        List.replicate g.nodes.length
          (List.replicate g.nodes.length none)⟩ :
          Graph NData EData).adjacencyMatrix
        = List.replicate g.nodes.length
            (List.replicate g.nodes.length none) from rfl,
      matrixCell_replicate_none] at hp
    cases hp
  · intro j e hj
    simp at hj

theorem import_node_lines (pN : List Char → NData) (pE : List Char → EData)
    (printN : NData → List Char)
    {g : Graph NData EData} (hw : WF g)
    (hrt : ∀ d, pN (printN d) = d)
    (hbr : ∀ d, '}' ∉ printN d)
    (u : Bool) (tN' tE' : Nat) (rest : List (Node NData)) :
    ∀ k : Nat, rest = g.nodes.drop k → k ≤ g.nodes.length →
    importGraph pN pE
      (⟨u, tN', tE', g.nodes.take k, [],
        List.replicate k (List.replicate k none)⟩ : Graph NData EData)
      (rest.map (exportNodeLine printN))
      = .ok ⟨u, tN', tE', g.nodes, [],
          List.replicate g.nodes.length
            (List.replicate g.nodes.length none)⟩ := by
  induction rest with
  | nil =>
    intro k hdrop hk
    have hk2 : g.nodes.length ≤ k := by
      have hlen := congrArg List.length hdrop
      simp only [List.length_nil, List.length_drop] at hlen
      omega
    have hkk : k = g.nodes.length := by omega
    subst hkk
    rw [List.take_length]
    rfl
  | cons nd rest' ih =>
    intro k hdrop hk
    have hnd : g.nodes[k]? = some nd := by
      have h0 : (g.nodes.drop k)[0]? = some nd := by
        rw [← hdrop]
        simp
      rwa [List.getElem?_drop, Nat.add_zero] at h0
    obtain ⟨hklt, -⟩ := List.getElem?_eq_some_iff.mp hnd
    have hid : nd.id = k := hw.nodeIds k nd hnd
    have hrest' : rest' = g.nodes.drop (k + 1) := by
      have htail := congrArg List.tail hdrop
      simp only [List.tail_cons] at htail
      rw [List.tail_drop] at htail
      exact htail
    have hlen : (g.nodes.take k).length = k := List.length_take_of_le hk
    have hadd : nodesAdd
        (⟨u, tN', tE', g.nodes.take k, [],
          List.replicate k (List.replicate k none)⟩ : Graph NData EData)
        nd.id (pN (printN nd.data))
        = (.ok ⟨k, nd.data⟩,
           ⟨u, tN', tE', g.nodes.take (k + 1), [],
            List.replicate (k + 1) (List.replicate (k + 1) none)⟩) := by
      rw [hrt nd.data, hid]
      have hself := nodesAdd_self
        (⟨u, tN', tE', g.nodes.take k, [],
          List.replicate k (List.replicate k none)⟩ : Graph NData EData)
        nd.data
      dsimp only at hself
      rw [hlen, growMatrix_replicate] at hself
      rw [show g.nodes.take (k + 1)
          = g.nodes.take k ++ [(⟨k, nd.data⟩ : Node NData)] from ?_]
      · exact hself
      · rw [List.take_succ, hnd]
        rw [show ((some nd).toList : List (Node NData))
            = [(⟨nd.id, nd.data⟩ : Node NData)] from rfl, hid]
    rw [List.map_cons]
    unfold importGraph
    rw [exportNodeLine_eq printN nd,
      importLine_nodeLine pN pE (hbr nd.data) hadd]
    exact ih (k + 1) hrest' (by omega)


theorem exportEdgeLine_some {g : Graph NData EData} (hw : WF g)
    (printE : EData → List Char) {e : Edge NData EData} (he : e ∈ g.edges) :
    exportEdgeLine printE g e = some (edgeLineOf printE e) :=
  exportEdgeLine_eq hw printE he

theorem import_edge_lines (pN : List Char → NData) (pE : List Char → EData)
    (printE : EData → List Char)
    {g : Graph NData EData} (hw : WF g)
    (hrt : ∀ d, pE (printE d) = d)
    (hbr : ∀ d, '}' ∉ printE d)
    (tN' tE' : Nat) (rest : List (Edge NData EData)) :
    ∀ (k : Nat) (M : Matrix), rest = g.edges.drop k →
    WF (⟨g.isUndirected, tN', tE', g.nodes,
          (g.edges.take k).map (retagEdge tN'), M⟩ : Graph NData EData) →
    ∃ c : Graph NData EData,
      importGraph pN pE
        (⟨g.isUndirected, tN', tE', g.nodes,
          (g.edges.take k).map (retagEdge tN'), M⟩ : Graph NData EData)
        (rest.map (edgeLineOf printE)) = .ok c ∧
      c.isUndirected = g.isUndirected ∧ c.nodes = g.nodes ∧
      c.edges = g.edges.map (retagEdge tN') ∧ WF c := by
  induction rest with
  | nil =>
    intro k M hdrop hwk
    have hk2 : g.edges.length ≤ k := by
      have hlen := congrArg List.length hdrop
      simp only [List.length_nil, List.length_drop] at hlen
      omega
    refine ⟨_, rfl, rfl, rfl, ?_, hwk⟩
    dsimp only
    rw [List.take_of_length_le hk2]
  | cons e rest' ih =>
    intro k M hdrop hwk
    have he : g.edges[k]? = some e := by
      have h0 : (g.edges.drop k)[0]? = some e := by
        rw [← hdrop]
        simp
      rwa [List.getElem?_drop, Nat.add_zero] at h0
    obtain ⟨hklt, -⟩ := List.getElem?_eq_some_iff.mp he
    have hid : e.id = k := hw.edgeIds k e he
    have hmem : e ∈ g.edges := List.getElem?_mem he
    have hrest' : rest' = g.edges.drop (k + 1) := by
      have htail := congrArg List.tail hdrop
      simp only [List.tail_cons] at htail
      rw [List.tail_drop] at htail
      exact htail
    have hlenE : ((g.edges.take k).map (retagEdge tN')).length = k := by
      rw [List.length_map]
      exact List.length_take_of_le (Nat.le_of_lt hklt)
    obtain ⟨hsr, htr⟩ := hw.ptrRange e hmem
    have hfree : matrixCell M e.source.index e.target.index = none := by
      cases hcell : matrixCell M e.source.index e.target.index with
    | none => rfl
    | some p =>
      exfalso
      obtain ⟨-, e', he', hcase⟩ :=
        hwk.cellSound e.source.index e.target.index p hcell
      have he2 : ((g.edges.take k).map (retagEdge tN'))[p.index]?
          = some e' := he'
      obtain ⟨hplt, -⟩ := List.getElem?_eq_some_iff.mp he2
      have hpk : p.index < k := by
        rw [hlenE] at hplt
        exact hplt
      rw [List.getElem?_map] at he2
      cases h0 : (g.edges.take k)[p.index]? with
      | none =>
        rw [h0] at he2
        cases he2
      | some e0 =>
        rw [h0, Option.map_some'] at he2
        have he3 : retagEdge tN' e0 = e' := Option.some.inj he2
        subst he3
        dsimp only [retagEdge] at hcase
        have horig : g.edges[p.index]? = some e0 := by
          rw [← List.getElem?_take_of_lt hpk]
          exact h0
        have hcompl := hw.cellComplete k e he
        have hcompl0 := hw.cellComplete p.index e0 horig
        rcases hcase with ⟨h1, h2⟩ | ⟨hu, h1, h2⟩
        · rw [h1, h2] at hcompl0
          have hkk := (hcompl.1).symm.trans hcompl0.1
          have hkk2 : k = p.index :=
            congrArg EdgePtr.index (Option.some.inj hkk)
          omega
        · have hu2 : g.isUndirected = true := hu
          rw [h1, h2] at hcompl0
          have hkk := (hcompl.1).symm.trans (hcompl0.2 hu2)
          have hkk2 : k = p.index :=
            congrArg EdgePtr.index (Option.some.inj hkk)
          omega
    obtain ⟨M', hadd⟩ : ∃ M',
        edgesAdd
          (⟨g.isUndirected, tN', tE', g.nodes,
            (g.edges.take k).map (retagEdge tN'), M⟩ : Graph NData EData)
          e.id e.source.index e.target.index (pE (printE e.data))
        = (.ok ⟨k, ⟨tN', e.source.index⟩, ⟨tN', e.target.index⟩, e.data⟩,
           (⟨g.isUndirected, tN', tE', g.nodes,
             (g.edges.take (k + 1)).map (retagEdge tN'), M'⟩ :
             Graph NData EData)) := by
      refine ⟨?_, ?_⟩
      case _ => exact (if g.isUndirected then
        matrixSet (matrixSet M e.source.index e.target.index
          (some ⟨tE', k⟩)) e.target.index e.source.index (some ⟨tE', k⟩)
        else matrixSet M e.source.index e.target.index (some ⟨tE', k⟩))
      rw [hrt e.data, hid]
      have hself := edgesAdd_self
        (g := (⟨g.isUndirected, tN', tE', g.nodes,
          (g.edges.take k).map (retagEdge tN'), M⟩ : Graph NData EData))
        e.data hsr htr hfree
      dsimp only at hself
      rw [hlenE] at hself
      rw [show (g.edges.take (k + 1)).map (retagEdge tN')
          = (g.edges.take k).map (retagEdge tN')
            ++ [(⟨k, ⟨tN', e.source.index⟩, ⟨tN', e.target.index⟩,
                  e.data⟩ : Edge NData EData)] from ?_]
      · exact hself
      · rw [List.take_succ, he, List.map_append]
        rw [show (((some e).toList).map (retagEdge tN')
            : List (Edge NData EData))
            = [(⟨e.id, ⟨tN', e.source.index⟩, ⟨tN', e.target.index⟩,
                 e.data⟩ : Edge NData EData)] from rfl, hid]
    have hwk1 : WF (⟨g.isUndirected, tN', tE', g.nodes,
        (g.edges.take (k + 1)).map (retagEdge tN'), M'⟩ :
        Graph NData EData) := wf_edgesAdd hwk hadd
    have hline : importLine pN pE
        (⟨g.isUndirected, tN', tE', g.nodes,
          (g.edges.take k).map (retagEdge tN'), M⟩ : Graph NData EData)
        (edgeLineOf printE e)
        = .ok (⟨g.isUndirected, tN', tE', g.nodes,
            (g.edges.take (k + 1)).map (retagEdge tN'), M'⟩ :
            Graph NData EData) := by
      rw [show edgeLineOf printE e
          = 'e' :: 'd' :: 'g' :: 'e' :: ' ' :: '(' ::
            (natToChars e.source.index ++ ')' :: '-' :: '[' ::
              (natToChars e.id ++ ' ' :: '{' ::
                (printE e.data ++ '}' :: ']' :: '-' :: '>' :: '(' ::
                  (natToChars e.target.index ++ [')'])))) from rfl]
      exact importLine_edgeLine pN pE (hbr e.data) hadd
    obtain ⟨c, hc1, hcU, hcN, hcE, hcW⟩ := ih (k + 1) M' hrest' hwk1
    refine ⟨c, ?_, hcU, hcN, hcE, hcW⟩
    rw [List.map_cons]
    conv_lhs => rw [importGraph]
    rw [hline]
    dsimp only
    exact hc1


/-- **C9**: for every well-formed graph whose node and edge payload text
representations are round-trip safe, printing the graph (one
`node (<id> \x7b<payload>\x7d)` line per node and one
`edge (<source>)-[<id> \x7b<payload>\x7d]->(<target>)` line per edge, in
storage order) and importing that text into a fresh empty graph of the same
orientation yields a graph equal to the original in the copy-fidelity
sense: the same node records, and for every edge id the same id, payload
and source/target indices, the endpoint pointers rebound into the new
graph's own node store. -/
theorem claim_C9 (printN : NData → List Char) (parseN : List Char → NData)
    (printE : EData → List Char) (parseE : List Char → EData)
    {g : Graph NData EData} (hw : WF g)
    (hN : RoundTripSafe printN parseN) (hE : RoundTripSafe printE parseE)
    (tN' tE' : Nat) :
    ∃ (lines : List (List Char)) (c : Graph NData EData),
      exportAllLines printN printE g = some lines ∧
      importGraph parseN parseE (mkGraph g.isUndirected tN' tE') lines
        = .ok c ∧
      c.isUndirected = g.isUndirected ∧
      c.nodes = g.nodes ∧
      c.edges = g.edges.map (retagEdge tN') := by
  have hEdgeLines : listMapM (exportEdgeLine printE g) g.edges
      = some (g.edges.map (edgeLineOf printE)) :=
    listMapM_map _ _ _ (fun e he => exportEdgeLine_some hw printE he)
  have hexp : exportAllLines printN printE g
      = some (g.nodes.map (exportNodeLine printN)
          ++ g.edges.map (edgeLineOf printE)) := by
    unfold exportAllLines
    rw [hEdgeLines]
    rfl
  have hnodes : importGraph parseN parseE (mkGraph g.isUndirected tN' tE')
      (g.nodes.map (exportNodeLine printN))
      = .ok (⟨g.isUndirected, tN', tE', g.nodes, [],
          List.replicate g.nodes.length
            (List.replicate g.nodes.length none)⟩ : Graph NData EData) :=
    import_node_lines parseN parseE printN hw hN.1
      (fun d => (hN.2 d).1) g.isUndirected tN' tE' g.nodes 0
      (List.drop_zero g.nodes).symm (Nat.zero_le _)
  obtain ⟨c, hc1, hcU, hcN, hcE, -⟩ :=
    import_edge_lines parseN parseE printE hw hE.1
      (fun d => (hE.2 d).1) tN' tE' g.edges 0
      (List.replicate g.nodes.length (List.replicate g.nodes.length none))
      (List.drop_zero g.edges).symm
      (wf_nodesOnly hw g.isUndirected tN' tE')
  refine ⟨_, c, hexp, ?_, hcU, hcN, hcE⟩
  rw [importGraph_append hnodes (g.edges.map (edgeLineOf printE))]
  exact hc1

/-- C9 witness: the directed demo graph, with decimal-numeral payload text
on both nodes and edges, round-trips through export and import into a
fresh directed graph with node store tag 5 and edge store tag 6. -/
theorem claim_C9_witness :
    ∃ (lines : List (List Char)) (c : Graph Nat Nat),
      exportAllLines natToChars natToChars demoDirected = some lines ∧
      importGraph (fun s => (stoiAll s).getD 0) (fun s => (stoiAll s).getD 0)
        (mkGraph demoDirected.isUndirected 5 6) lines = .ok c ∧
      c.isUndirected = demoDirected.isUndirected ∧
      c.nodes = demoDirected.nodes ∧
      c.edges = demoDirected.edges.map (retagEdge 5) :=
  claim_C9 natToChars (fun s => (stoiAll s).getD 0) natToChars
    (fun s => (stoiAll s).getD 0) demoDirected_wf
    ⟨fun d => by
        show (stoiAll (natToChars d)).getD 0 = d
        rw [stoiAll_natToChars]
        rfl,
      fun d =>
        ⟨not_mem_natToChars (by decide) d, not_mem_natToChars (by decide) d⟩⟩
    ⟨fun d => by
        show (stoiAll (natToChars d)).getD 0 = d
        rw [stoiAll_natToChars]
        rfl,
      fun d =>
        ⟨not_mem_natToChars (by decide) d, not_mem_natToChars (by decide) d⟩⟩
    5 6

end GraphModel
